import Mathlib

/-!
Verification development for the seat-allocation and invitation-lifecycle
engine of the Deno team-invite portal.

The definitions below are a shallow embedding of the TypeScript source:

* `lowerStr`, `trimStr` embed JavaScript's `String.prototype.toLowerCase`
  (restricted to ASCII, which is all the code compares) and
  `String.prototype.trim`.
* The data model (`Team`, `AccessKey`, `Invitation`, `KickLog`,
  `AutoKickConfig`) mirrors the interfaces of `lib/db.ts`.
* `DBState` stands for the Deno KV store; the `DB.*` helpers of `lib/db.ts`
  become pure state transformers (`updateTeamF`, `incrementKeyUsage`,
  `createInvitation`, `addKickLog`, `listTeams`, `listInvitations`).
* `Remote` abstracts the ChatGPT backend API calls (`fetchTeamMembers`,
  `inviteToTeam`, `kickMember`); a `Remote` value fixes the responses the
  network would give during one request or one cron tick.
* `join` embeds the `POST /api/join` handler of `main.ts`; `tick` embeds the
  "Auto Kick Service" cron job.  The parts of the cron job that the source
  leaves as comment-level placeholders are modelled from the specification
  and are marked as such in their doc comments.
-/

/-! ## ASCII string operations used by the source -/

/-- A whitespace character as trimmed by `String.prototype.trim`
(restricted to the ASCII whitespace actually appearing in inputs). -/
def isWsChar (c : Char) : Bool :=
  c == ' ' || c == '\t' || c == '\n' || c == '\r'

/-- ASCII lower-casing of one character, as done by
`String.prototype.toLowerCase` on ASCII input. -/
def lowerChar (c : Char) : Char :=
  if 65 ≤ c.toNat ∧ c.toNat ≤ 90 then Char.ofNat (c.toNat + 32) else c

/-- Embedding of `email.toLowerCase()`. -/
def lowerStr (s : String) : String :=
  ⟨s.data.map lowerChar⟩

/-- Trim on the character list: drop leading whitespace, then trailing. -/
def trimList (l : List Char) : List Char :=
  ((l.dropWhile isWsChar).reverse.dropWhile isWsChar).reverse

/-- Embedding of `email.trim()`. -/
def trimStr (s : String) : String :=
  ⟨trimList s.data⟩

/-- Whether `pat` occurs as a substring of `s`
(embedding of `String.prototype.includes`). -/
def containsSub (s pat : String) : Bool :=
  go s.data pat.data
where
  go : List Char → List Char → Bool
    | l, p => p.isPrefixOf l ||
        match l with
        | [] => false
        | _ :: t => go t p

/-! ## Data model (interfaces of `lib/db.ts`) -/

inductive TokenStatus where
  | active
  | expired
deriving DecidableEq, Repr

inductive InvStatus where
  | pending
  | success
  | failed
deriving DecidableEq, Repr

/-- `interface Team` of `lib/db.ts`. -/
structure Team where
  id : String
  name : String
  accountId : String
  accessToken : String
  organizationId : Option String := none
  email : Option String := none
  tokenErrorCount : Nat
  tokenStatus : TokenStatus
  memberCount : Nat
  lastInviteAt : Option Nat := none
  createdAt : Nat
  updatedAt : Nat
deriving DecidableEq, Repr

/-- `interface AccessKey` of `lib/db.ts`. -/
structure AccessKey where
  code : String
  teamId : Option String := none
  isTemp : Bool
  isUnlimited : Bool
  tempHours : Option Nat := none
  usageCount : Nat
  createdAt : Nat
deriving DecidableEq, Repr

/-- `interface Invitation` of `lib/db.ts`. -/
structure Invitation where
  id : String
  teamId : String
  email : String
  keyCode : Option String := none
  status : InvStatus
  isTemp : Bool
  tempExpireAt : Option Nat := none
  isConfirmed : Bool
  createdAt : Nat
deriving DecidableEq, Repr

/-- `interface KickLog` of `lib/db.ts`. -/
structure KickLog where
  id : String
  teamId : String
  email : String
  reason : String
  success : Bool
  error : Option String := none
  createdAt : Nat
deriving DecidableEq, Repr

/-- `interface AutoKickConfig` of `lib/db.ts`. -/
structure AutoKickConfig where
  enabled : Bool
  checkInterval : Nat
  startHour : Nat
  endHour : Nat
deriving DecidableEq, Repr

/-! ## The KV store and the `DB` helpers -/

/-- The Deno KV store contents relevant to the engine.  Lists stand for the
key-ordered enumeration of each key prefix; `emailIndex` is the secondary
index `["invitations_by_email", email, teamId] -> id`; `nextId` feeds the
fresh-id supply standing for `crypto.randomUUID()`. -/
structure DBState where
  teams : List Team
  keys : List AccessKey
  invitations : List Invitation
  emailIndex : List ((String × String) × String)
  kickLogs : List KickLog
  autoKick : Option AutoKickConfig
  nextId : Nat
deriving DecidableEq, Repr

/-- Fresh id generation standing for `crypto.randomUUID()`. -/
def genId (n : Nat) : String := toString n

/-- `DB.getTeam`: lookup of `["teams", id]`. -/
def findTeam (db : DBState) (id : String) : Option Team :=
  db.teams.find? (fun t => t.id == id)

/-- `DB.getAccessKey`: lookup of `["keys", code]`. -/
def getAccessKey (db : DBState) (code : String) : Option AccessKey :=
  db.keys.find? (fun k => k.code == code)

/-- `DB.listTeams`: enumerate and sort by `createdAt` descending
(`(a, b) => b.createdAt - a.createdAt`, a stable sort). -/
def listTeams (ts : List Team) : List Team :=
  ts.mergeSort (fun a b => b.createdAt ≤ a.createdAt)

/-- `DB.listInvitations`: enumerate and sort by `createdAt` descending. -/
def listInvitations (is : List Invitation) : List Invitation :=
  is.mergeSort (fun a b => b.createdAt ≤ a.createdAt)

/-- `DB.updateTeam`: read the record, merge the partial update `f`, stamp
`updatedAt`, write back under the same key.  Returns `none` when the team
does not exist (the source throws `"Team not found"`). -/
def updateTeamF (db : DBState) (id : String) (f : Team → Team) (now : Nat) :
    Option (Team × DBState) :=
  match db.teams.find? (fun t => t.id == id) with
  | none => none
  | some t =>
    let u := { f t with updatedAt := now }
    some (u, { db with teams := db.teams.map (fun x => if x.id == id then u else x) })

/-- `DB.incrementKeyUsage`: bump `usageCount` if the key exists, else no-op. -/
def incrementKeyUsage (db : DBState) (code : String) : DBState :=
  match getAccessKey db code with
  | none => db
  | some _ =>
    { db with keys := db.keys.map (fun k =>
        if k.code == code then { k with usageCount := k.usageCount + 1 } else k) }

/-- The argument record of `DB.createInvitation`
(`Omit<Invitation, "id" | "createdAt">`). -/
structure NewInvitation where
  teamId : String
  email : String
  keyCode : Option String
  status : InvStatus
  isTemp : Bool
  tempExpireAt : Option Nat
  isConfirmed : Bool
deriving DecidableEq, Repr

/-- KV `set` on the secondary index: overwrite the entry for the key if
present, otherwise insert it. -/
def indexSet (idx : List ((String × String) × String)) (k : String × String)
    (v : String) : List ((String × String) × String) :=
  if idx.any (fun e => e.1 == k) then
    idx.map (fun e => if e.1 == k then (k, v) else e)
  else idx ++ [(k, v)]

/-- Index lookup. -/
def lookupIndex (db : DBState) (k : String × String) : Option String :=
  (db.emailIndex.find? (fun e => e.1 == k)).map (fun e => e.2)

/-- `DB.createInvitation`: normalize the email (`trim().toLowerCase()`),
assign a fresh id and timestamp, store the record and write the secondary
index entry `["invitations_by_email", normalizedEmail, teamId] -> id`. -/
def createInvitation (db : DBState) (inv : NewInvitation) (now : Nat) :
    Invitation × DBState :=
  let id := genId db.nextId
  let normalizedEmail := lowerStr (trimStr inv.email)
  let newInv : Invitation :=
    { id := id, teamId := inv.teamId, email := normalizedEmail
      keyCode := inv.keyCode, status := inv.status, isTemp := inv.isTemp
      tempExpireAt := inv.tempExpireAt, isConfirmed := inv.isConfirmed
      createdAt := now }
  (newInv,
    { db with
        invitations := db.invitations ++ [newInv]
        emailIndex := indexSet db.emailIndex (normalizedEmail, inv.teamId) id
        nextId := db.nextId + 1 })

/-- The argument record of `DB.addKickLog` (`Omit<KickLog, "id" | "createdAt">`). -/
structure NewKickLog where
  teamId : String
  email : String
  reason : String
  success : Bool
  error : Option String
deriving DecidableEq, Repr

/-- `DB.addKickLog`: assign id and timestamp, append. -/
def addKickLog (db : DBState) (log : NewKickLog) (now : Nat) : KickLog × DBState :=
  let newLog : KickLog :=
    { id := genId db.nextId, teamId := log.teamId, email := log.email
      reason := log.reason, success := log.success, error := log.error
      createdAt := now }
  (newLog, { db with kickLogs := db.kickLogs ++ [newLog], nextId := db.nextId + 1 })

/-- `DB.getAutoKickConfig`: stored config or the default. -/
def getAutoKickCfg (db : DBState) : AutoKickConfig :=
  db.autoKick.getD ⟨false, 300, 0, 23⟩

/-! ## The remote ChatGPT backend -/

/-- One entry of the member list returned by
`GET /backend-api/accounts/{accountId}/users`. -/
structure Member where
  id : String
  email : String
  role : String
deriving DecidableEq, Repr

/-- The responses of the remote API during one request or one tick:
`fetchMembers` embeds `fetchTeamMembers(accessToken, accountId)` (`none`
means the call threw), `invite` embeds `inviteToTeam(accessToken,
accountId, email)` (`some msg` is the thrown error message), `kickOk`
embeds whether `kickMember(accountId, userId)` succeeds. -/
structure Remote where
  fetchMembers : String → String → Option (List Member)
  invite : String → String → String → Option String
  kickOk : String → String → Bool

/-! ## The `POST /api/join` handler -/

inductive JoinResult where
  | missingFields
  | invalidKey
  | keyAlreadyUsed
  | alreadyMember (teamName : String)
  | noAvailableTeams
  | inviteSent
  | inviteFailed (msg : String)
  | thrown (msg : String)
deriving DecidableEq, Repr

inductive ScanRes where
  | matched (teamName : String)
  | finished (sel : Option Team)
  | thrown (msg : String)
deriving DecidableEq, Repr

structure ScanOut where
  res : ScanRes
  db : DBState
deriving DecidableEq, Repr

/-- `key.tempHours || 24` — JavaScript `||` treats `0` as absent. -/
def tempHoursOr24 (h : Option Nat) : Nat :=
  match h with
  | none => 24
  | some n => if n = 0 then 24 else n

/-- The `for (const team of teams)` loop of the join handler: skip expired
teams, refresh membership from the remote API (marking the team expired on
failure), short-circuit when the normalized email is already a non-owner
member, otherwise remember the first team with fewer than 4 non-owner
members as the candidate. -/
def joinScan (remote : Remote) (now : Nat) (normalizedEmail email key_code : String)
    (key : AccessKey) : List Team → DBState → Option Team → ScanOut
  | [], db, sel => ⟨ScanRes.finished sel, db⟩
  | t :: rest, db, sel =>
    if t.tokenStatus == TokenStatus.expired then
      joinScan remote now normalizedEmail email key_code key rest db sel
    else
      match remote.fetchMembers t.accessToken t.accountId with
      | none =>
        match updateTeamF db t.id (fun u => { u with tokenStatus := TokenStatus.expired }) now with
        | none => ⟨ScanRes.thrown "Team not found", db⟩
        | some (_, db1) => joinScan remote now normalizedEmail email key_code key rest db1 sel
      | some members =>
        match updateTeamF db t.id
            (fun u => { u with
              memberCount := (members.filter (fun m => m.role != "account-owner")).length,
              tokenStatus := TokenStatus.active }) now with
        | none => ⟨ScanRes.thrown "Team not found", db⟩
        | some (refreshed, db1) =>
          if (((members.filter (fun m => m.role != "account-owner")).map
                (fun m => lowerStr m.email)).filter (fun e => e != "")).contains
              normalizedEmail then
            ⟨ScanRes.matched refreshed.name,
             incrementKeyUsage
               ((createInvitation db1
                  ⟨refreshed.id, email, some key_code, InvStatus.success, key.isTemp,
                   if key.isTemp then some (now + tempHoursOr24 key.tempHours * 3600000)
                   else none,
                   false⟩ now).2) key_code⟩
          else
            joinScan remote now normalizedEmail email key_code key rest db1
              (if decide ((members.filter (fun m => m.role != "account-owner")).length < 4)
                  && sel.isNone then some refreshed else sel)

structure JoinOut where
  res : JoinResult
  db : DBState
  invites : List (String × String)
deriving DecidableEq, Repr

/-- Embedding of the `POST /api/join` handler of `main.ts`: field
validation, key validation, single-use check, the team scan, and the
invite on the selected candidate.  `invites` collects the
`inviteToTeam(accountId, email)` calls made against the remote API. -/
def join (db : DBState) (remote : Remote) (now : Nat) (email key_code : String) : JoinOut :=
  if email == "" || key_code == "" then ⟨JoinResult.missingFields, db, []⟩
  else
    match getAccessKey db key_code with
    | none => ⟨JoinResult.invalidKey, db, []⟩
    | some key =>
      if !key.isUnlimited && !key.isTemp && decide (key.usageCount > 0) then
        ⟨JoinResult.keyAlreadyUsed, db, []⟩
      else
        match joinScan remote now (lowerStr email) email key_code key
            (listTeams db.teams) db none with
        | ⟨ScanRes.matched name, dbOut⟩ => ⟨JoinResult.alreadyMember name, dbOut, []⟩
        | ⟨ScanRes.thrown msg, dbOut⟩ => ⟨JoinResult.thrown msg, dbOut, []⟩
        | ⟨ScanRes.finished none, dbOut⟩ => ⟨JoinResult.noAvailableTeams, dbOut, []⟩
        | ⟨ScanRes.finished (some st), dbOut⟩ =>
          match remote.invite st.accessToken st.accountId email with
          | none =>
            match updateTeamF
                (incrementKeyUsage
                  ((createInvitation dbOut
                    ⟨st.id, email, some key_code, InvStatus.success, key.isTemp,
                     if key.isTemp then some (now + tempHoursOr24 key.tempHours * 3600000)
                     else none,
                     false⟩ now).2) key_code)
                st.id
                (fun u => { u with memberCount := st.memberCount + 1, lastInviteAt := some now })
                now with
            | none =>
              ⟨JoinResult.thrown "Team not found",
               incrementKeyUsage
                 ((createInvitation dbOut
                   ⟨st.id, email, some key_code, InvStatus.success, key.isTemp,
                    if key.isTemp then some (now + tempHoursOr24 key.tempHours * 3600000)
                    else none,
                    false⟩ now).2) key_code,
               [(st.accountId, email)]⟩
            | some (_, db3) => ⟨JoinResult.inviteSent, db3, [(st.accountId, email)]⟩
          | some msg =>
            if containsSub msg "401" || containsSub msg "expired" then
              match updateTeamF dbOut st.id
                  (fun u => { u with tokenStatus := TokenStatus.expired }) now with
              | none => ⟨JoinResult.thrown "Team not found", dbOut, [(st.accountId, email)]⟩
              | some (_, db1) =>
                ⟨JoinResult.inviteFailed ("Invite failed: " ++ msg), db1, [(st.accountId, email)]⟩
            else
              ⟨JoinResult.inviteFailed ("Invite failed: " ++ msg), dbOut, [(st.accountId, email)]⟩

/-! ## The "Auto Kick Service" cron job -/

/-- The filter of the expiry pass, in the source's evaluation order:
`inv.isTemp && !inv.isConfirmed && inv.tempExpireAt && Date.now() >
inv.tempExpireAt && inv.status === 'success'` (a `tempExpireAt` of `0` is
falsy in JavaScript). -/
def expiryCond (now : Nat) (inv : Invitation) : Bool :=
  inv.isTemp && !inv.isConfirmed &&
    (match inv.tempExpireAt with
     | some e => !(e == 0) && decide (e < now)
     | none => false) &&
    inv.status == InvStatus.success

/-- The accumulated effects of one tick: the evolved store and the
`(accountId, memberId)` pairs for which a remote removal was attempted. -/
structure TickOut where
  db : DBState
  kicks : List (String × String)
deriving DecidableEq, Repr

/-- One iteration of the expiry pass for invitation `inv`: when the filter
holds, look up the owning team, fetch its live roster, find the member by
exact email equality (`m.email === inv.email`).

The body of the source's `if (member) { ... }` is a comment-level
placeholder ("Implementation omitted for brevity") — that part is
modelled from the spec: remove the member via the remote client and
record a KickLog entry with reason "expired" regardless of the removal's
outcome. -/
def expiryStep (remote : Remote) (now : Nat) (acc : TickOut) (inv : Invitation) : TickOut :=
  if expiryCond now inv then
    match findTeam acc.db inv.teamId with
    | none => acc
    | some team =>
      match remote.fetchMembers team.accessToken team.accountId with
      | none => acc
      | some members =>
        match members.find? (fun m => m.email == inv.email) with
        | none => acc
        | some member =>
          ⟨(addKickLog acc.db
              ⟨inv.teamId, inv.email, "expired", remote.kickOk team.accountId member.id,
               if remote.kickOk team.accountId member.id then none else some "Kick failed"⟩
              now).2,
           acc.kicks ++ [(team.accountId, member.id)]⟩
  else acc

/-- The expiry pass of the cron job: scan every invitation (as listed by
`DB.listInvitations`) through `expiryStep`. -/
def expiryPass (db : DBState) (remote : Remote) (now : Nat) : TickOut :=
  (listInvitations db.invitations).foldl (expiryStep remote now) ⟨db, []⟩

/-- Whether `e` holds a `success`-status invitation for team `teamId`. -/
def authorizedEmail (db : DBState) (teamId e : String) : Bool :=
  db.invitations.any (fun inv =>
    inv.teamId == teamId && inv.status == InvStatus.success && inv.email == e)

/-- Modelled from the spec: the source's "Full Sync (Check illegal
members)" step is a comment-level placeholder (`main.ts`, end of the cron
body), so this pass follows spec §4.4: for every team, compare the live
non-owner membership against the set of emails holding a current
`success` invitation for that team, and remove every live member with no
matching authorized invitation via the remote client, recording a KickLog
entry with reason "unauthorized" for each removal. -/
def unauthorizedPass (remote : Remote) (now : Nat) (t0 : TickOut) : TickOut :=
  t0.db.teams.foldl (fun acc team =>
    match remote.fetchMembers team.accessToken team.accountId with
    | none => acc
    | some members =>
      (members.filter (fun m => m.role != "account-owner")).foldl (fun acc2 m =>
        if authorizedEmail acc2.db team.id (lowerStr m.email) then acc2
        else
          ⟨(addKickLog acc2.db
              ⟨team.id, lowerStr m.email, "unauthorized", remote.kickOk team.accountId m.id,
               if remote.kickOk team.accountId m.id then none else some "Kick failed"⟩ now).2,
           acc2.kicks ++ [(team.accountId, m.id)]⟩) acc) t0

/-- Embedding of the `Deno.cron "Auto Kick Service"` body: read the config,
gate on `enabled` and on the local-hour window, then run the expiry pass
followed by the unauthorized pass.  `currentHour` stands for
`new Date().getHours()`. -/
def tick (db : DBState) (remote : Remote) (now : Nat) (currentHour : Nat) : TickOut :=
  if !(getAutoKickCfg db).enabled then ⟨db, []⟩
  else if decide (currentHour < (getAutoKickCfg db).startHour)
      || decide (currentHour > (getAutoKickCfg db).endHour) then
    ⟨db, []⟩
  else
    unauthorizedPass remote now (expiryPass db remote now)

/-! ## Derived descriptions of the scan used in the statements -/

/-- The roster emails the join scan compares against: non-owner members'
emails, lower-cased, with empty strings dropped. -/
def rosterEmails (members : List Member) : List String :=
  ((members.filter (fun m => m.role != "account-owner")).map (fun m => lowerStr m.email)).filter
    (fun e => e != "")

/-- Whether the join scan's already-a-member short-circuit fires for team
`t`: the team is not expired, its roster fetch succeeds, and the
normalized email is among its non-owner member emails. -/
def teamMatches (remote : Remote) (normalizedEmail : String) (t : Team) : Bool :=
  !(t.tokenStatus == TokenStatus.expired) &&
    match remote.fetchMembers t.accessToken t.accountId with
    | some members => (rosterEmails members).contains normalizedEmail
    | none => false

/-- Whether team `t` can become the scan's invite candidate: not expired,
roster fetch succeeds, fewer than 4 non-owner members. -/
def candTeamOK (remote : Remote) (t : Team) : Bool :=
  !(t.tokenStatus == TokenStatus.expired) &&
    match remote.fetchMembers t.accessToken t.accountId with
    | some members => decide ((members.filter (fun m => m.role != "account-owner")).length < 4)
    | none => false

/-- The refreshed team record the scan writes back for team `t`. -/
def refreshedOf (remote : Remote) (now : Nat) (t : Team) : Team :=
  match remote.fetchMembers t.accessToken t.accountId with
  | some members =>
    { t with memberCount := (members.filter (fun m => m.role != "account-owner")).length,
             tokenStatus := TokenStatus.active, updatedAt := now }
  | none => { t with tokenStatus := TokenStatus.expired, updatedAt := now }

/-- The invitation record the join handler creates for team id `tid`. -/
def mkJoinInvitation (nextId : Nat) (tid email key_code : String) (key : AccessKey)
    (now : Nat) : Invitation :=
  { id := genId nextId, teamId := tid, email := lowerStr (trimStr email)
    keyCode := some key_code, status := InvStatus.success, isTemp := key.isTemp
    tempExpireAt := if key.isTemp then some (now + tempHoursOr24 key.tempHours * 3600000)
                    else none
    isConfirmed := false, createdAt := now }

/-- The key list after `DB.incrementKeyUsage code`. -/
def bumpKeys (ks : List AccessKey) (code : String) : List AccessKey :=
  ks.map (fun k => if k.code == code then { k with usageCount := k.usageCount + 1 } else k)

/-! ## Reconciliation helpers used in the statements -/

/-- A "one more step keeps the accumulated effects" property shared by the
steps of both reconciliation passes. -/
def TickStepMono {α : Type} (f : TickOut → α → TickOut) : Prop :=
  ∀ (acc : TickOut) (x : α), ∃ k2 l2,
    (f acc x).kicks = acc.kicks ++ k2 ∧
    (f acc x).db.kickLogs = acc.db.kickLogs ++ l2 ∧
    (f acc x).db.teams = acc.db.teams ∧
    (f acc x).db.invitations = acc.db.invitations

/-- The inner per-member step of the unauthorized pass. -/
def unauthStep (remote : Remote) (now : Nat) (team : Team) (acc2 : TickOut) (m : Member) :
    TickOut :=
  if authorizedEmail acc2.db team.id (lowerStr m.email) then acc2
  else
    ⟨(addKickLog acc2.db
        ⟨team.id, lowerStr m.email, "unauthorized", remote.kickOk team.accountId m.id,
         if remote.kickOk team.accountId m.id then none else some "Kick failed"⟩ now).2,
     acc2.kicks ++ [(team.accountId, m.id)]⟩

/-- The outer per-team step of the unauthorized pass. -/
def unauthTeamStep (remote : Remote) (now : Nat) (acc : TickOut) (team : Team) : TickOut :=
  match remote.fetchMembers team.accessToken team.accountId with
  | none => acc
  | some members =>
    (members.filter (fun m => m.role != "account-owner")).foldl
      (unauthStep remote now team) acc

/-! ## Concrete sample data for evaluation -/

def wTeam1 : Team :=
  { id := "t1", name := "Team One", accountId := "acct1", accessToken := "tok1"
    tokenErrorCount := 0, tokenStatus := TokenStatus.active, memberCount := 1
    createdAt := 100, updatedAt := 100 }

def wTeam2 : Team :=
  { id := "t2", name := "Team Two", accountId := "acct2", accessToken := "tok2"
    tokenErrorCount := 0, tokenStatus := TokenStatus.active, memberCount := 0
    createdAt := 50, updatedAt := 50 }

def wKey : AccessKey :=
  { code := "key1", isTemp := false, isUnlimited := false, usageCount := 0, createdAt := 10 }

def wKeyTemp : AccessKey :=
  { code := "keyt", isTemp := true, isUnlimited := false, tempHours := some 24
    usageCount := 0, createdAt := 10 }

def wKeyTemp0 : AccessKey :=
  { code := "key0", isTemp := true, isUnlimited := false, tempHours := some 0
    usageCount := 0, createdAt := 10 }

def wOwner : Member := { id := "u0", email := "owner@x.com", role := "account-owner" }

def wMember : Member := { id := "u1", email := "user@x.com", role := "standard-user" }

def wMemberB : Member := { id := "u2", email := "b@x.com", role := "standard-user" }

def wMemberC : Member := { id := "u3", email := "c@x.com", role := "standard-user" }

def wMemberD : Member := { id := "u4", email := "d@x.com", role := "standard-user" }

/-- A remote world where account `acct1` has one non-owner member. -/
def wRemote : Remote :=
  { fetchMembers := fun _ acct => if acct == "acct1" then some [wOwner, wMember] else some []
    invite := fun _ _ _ => none
    kickOk := fun _ _ => true }

/-- A remote world where every roster holds four non-owner members. -/
def wRemoteFull : Remote :=
  { fetchMembers := fun _ _ => some [wOwner, wMember, wMemberB, wMemberC, wMemberD]
    invite := fun _ _ _ => none
    kickOk := fun _ _ => true }

def wDb : DBState :=
  { teams := [wTeam1, wTeam2], keys := [wKey, wKeyTemp, wKeyTemp0], invitations := []
    emailIndex := [], kickLogs := [], autoKick := some ⟨true, 300, 0, 23⟩, nextId := 0 }

def wDbOne : DBState :=
  { teams := [wTeam1], keys := [wKey], invitations := []
    emailIndex := [], kickLogs := [], autoKick := none, nextId := 0 }

/-- A temp invitation that expired at time 500. -/
def wInv1 : Invitation :=
  { id := "i1", teamId := "t1", email := "user@x.com", keyCode := some "key1"
    status := InvStatus.success, isTemp := true, tempExpireAt := some 500
    isConfirmed := false, createdAt := 400 }

/-- A temp invitation that expires exactly at time 1000. -/
def wInv1e : Invitation :=
  { id := "i1", teamId := "t1", email := "user@x.com", keyCode := some "key1"
    status := InvStatus.success, isTemp := true, tempExpireAt := some 1000
    isConfirmed := false, createdAt := 400 }

def wDbC1 : DBState :=
  { teams := [wTeam1], keys := [wKey], invitations := [wInv1]
    emailIndex := [], kickLogs := [], autoKick := some ⟨true, 300, 0, 23⟩, nextId := 0 }

def wDbC1e : DBState :=
  { teams := [wTeam1], keys := [wKey], invitations := [wInv1e]
    emailIndex := [], kickLogs := [], autoKick := some ⟨true, 300, 0, 23⟩, nextId := 0 }

def wDbC2 : DBState :=
  { teams := [wTeam1], keys := [], invitations := []
    emailIndex := [], kickLogs := [], autoKick := some ⟨true, 300, 0, 23⟩, nextId := 0 }

def wNewInv : NewInvitation :=
  { teamId := "t1", email := " USER@X.com ", keyCode := some "key1"
    status := InvStatus.success, isTemp := false, tempExpireAt := none, isConfirmed := false }

/-! ## Character and string lemmas -/

lemma char_toNat_inj {a b : Char} (h : a.toNat = b.toNat) : a = b := by
  have h2 := congrArg Char.ofNat h
  rwa [Char.ofNat_toNat, Char.ofNat_toNat] at h2

lemma charOfNat_toNat {n : Nat} (h : n < 55296) : (Char.ofNat n).toNat = n := by
  have hv : n.isValidChar := Or.inl h
  simp [Char.ofNat, hv, Char.ofNatAux, Char.toNat]
  rfl

lemma lowerChar_of_upper {c : Char} (h : 65 ≤ c.toNat ∧ c.toNat ≤ 90) :
    lowerChar c = Char.ofNat (c.toNat + 32) := by
  unfold lowerChar; exact if_pos h

lemma lowerChar_of_not_upper {c : Char} (h : ¬(65 ≤ c.toNat ∧ c.toNat ≤ 90)) :
    lowerChar c = c := by
  unfold lowerChar; exact if_neg h

lemma lowerChar_toNat (c : Char) :
    (lowerChar c).toNat = if 65 ≤ c.toNat ∧ c.toNat ≤ 90 then c.toNat + 32 else c.toNat := by
  by_cases h : 65 ≤ c.toNat ∧ c.toNat ≤ 90
  · rw [lowerChar_of_upper h, if_pos h]
    exact charOfNat_toNat (by omega)
  · rw [lowerChar_of_not_upper h, if_neg h]

lemma lowerChar_idem (c : Char) : lowerChar (lowerChar c) = lowerChar c := by
  by_cases h : 65 ≤ c.toNat ∧ c.toNat ≤ 90
  · have ht : (lowerChar c).toNat = c.toNat + 32 := by rw [lowerChar_toNat, if_pos h]
    apply lowerChar_of_not_upper
    rw [ht]; omega
  · rw [lowerChar_of_not_upper h, lowerChar_of_not_upper h]

lemma isWsChar_eq_false_of_toNat {c : Char}
    (h : c.toNat ≠ 32 ∧ c.toNat ≠ 9 ∧ c.toNat ≠ 10 ∧ c.toNat ≠ 13) :
    isWsChar c = false := by
  unfold isWsChar
  simp only [Bool.or_eq_false_iff, beq_eq_false_iff_ne]
  refine ⟨⟨⟨?_, ?_⟩, ?_⟩, ?_⟩ <;> intro hc <;> subst hc <;> simp_all [Char.toNat]

lemma isWsChar_lowerChar (c : Char) : isWsChar (lowerChar c) = isWsChar c := by
  by_cases h : 65 ≤ c.toNat ∧ c.toNat ≤ 90
  · have h1 : isWsChar c = false := isWsChar_eq_false_of_toNat (by omega)
    have ht : (lowerChar c).toNat = c.toNat + 32 := by rw [lowerChar_toNat, if_pos h]
    have h2 : isWsChar (lowerChar c) = false := isWsChar_eq_false_of_toNat (by omega)
    rw [h1, h2]
  · rw [lowerChar_of_not_upper h]

lemma isWs_comp_lowerChar : isWsChar ∘ lowerChar = isWsChar := by
  funext c; exact isWsChar_lowerChar c

lemma map_lowerChar_idem (l : List Char) :
    (l.map lowerChar).map lowerChar = l.map lowerChar := by
  rw [List.map_map]
  apply List.map_congr_left
  intro a _
  exact lowerChar_idem a

lemma trimList_map_lowerChar (l : List Char) :
    trimList (l.map lowerChar) = (trimList l).map lowerChar := by
  unfold trimList
  rw [List.dropWhile_map, isWs_comp_lowerChar, ← List.map_reverse,
    List.dropWhile_map, isWs_comp_lowerChar, ← List.map_reverse]

lemma head?_dropWhile_false (p : α → Bool) :
    ∀ (l : List α) (a : α), (l.dropWhile p).head? = some a → p a = false := by
  intro l
  induction l with
  | nil => intro a ha; simp [List.dropWhile] at ha
  | cons b t ih =>
    intro a ha
    by_cases hb : p b
    · rw [List.dropWhile_cons_of_pos hb] at ha
      exact ih a ha
    · rw [List.dropWhile_cons_of_neg hb] at ha
      simp at ha
      rw [← ha]
      simpa using hb

lemma dropWhile_eq_self_of_head? (p : α → Bool) (l : List α)
    (h : ∀ a, l.head? = some a → p a = false) : l.dropWhile p = l := by
  match l with
  | [] => rfl
  | a :: t =>
    apply List.dropWhile_cons_of_neg
    simp [h a rfl]

lemma trimList_idem (l : List Char) : trimList (trimList l) = trimList l := by
  have hTB := List.takeWhile_append_dropWhile isWsChar (l.dropWhile isWsChar).reverse
  have hBhead := head?_dropWhile_false isWsChar (l.dropWhile isWsChar).reverse
  have hRhead : ∀ a,
      ((l.dropWhile isWsChar).reverse.dropWhile isWsChar).reverse.head? = some a →
      isWsChar a = false := by
    intro a ha
    rw [List.head?_reverse] at ha
    rcases hBe : (l.dropWhile isWsChar).reverse.dropWhile isWsChar with _ | ⟨b, t⟩
    · rw [hBe] at ha; simp at ha
    · have hg : ∃ g, (b :: t).getLast? = some g := by
        cases hgl : (b :: t).getLast? with
        | none => simp at hgl
        | some g => exact ⟨g, rfl⟩
      obtain ⟨g, hgl⟩ := hg
      have h1 : (l.dropWhile isWsChar).reverse.getLast? =
          ((l.dropWhile isWsChar).reverse.dropWhile isWsChar).getLast? := by
        conv_lhs => rw [← hTB]
        rw [List.getLast?_append, hBe, hgl, Option.or]
      have h2 : (l.dropWhile isWsChar).reverse.getLast? = (l.dropWhile isWsChar).head? :=
        List.getLast?_reverse _
      have h3 : (l.dropWhile isWsChar).head? = some a := by
        rw [← h2, h1]; exact ha
      exact head?_dropWhile_false isWsChar l a h3
  show trimList (((l.dropWhile isWsChar).reverse.dropWhile isWsChar).reverse) = _
  unfold trimList
  rw [dropWhile_eq_self_of_head? isWsChar _ hRhead, List.reverse_reverse,
    dropWhile_eq_self_of_head? isWsChar _ hBhead]

lemma trimStr_lowerStr (s : String) : trimStr (lowerStr s) = lowerStr (trimStr s) := by
  unfold trimStr lowerStr
  simp only
  rw [trimList_map_lowerChar]

lemma lowerStr_idem (s : String) : lowerStr (lowerStr s) = lowerStr s := by
  unfold lowerStr
  simp only
  rw [map_lowerChar_idem]

lemma trimStr_idem (s : String) : trimStr (trimStr s) = trimStr s := by
  unfold trimStr
  simp only
  rw [trimList_idem]

lemma norm_lowerStr (s : String) :
    lowerStr (trimStr (lowerStr s)) = lowerStr (trimStr s) := by
  rw [trimStr_lowerStr, lowerStr_idem]

lemma norm_idem (s : String) :
    lowerStr (trimStr (lowerStr (trimStr s))) = lowerStr (trimStr s) := by
  rw [trimStr_lowerStr, trimStr_idem, lowerStr_idem]

/-! ## Store-operation lemmas -/

lemma updateTeamF_spec {db : DBState} {id : String} (f : Team → Team) (now : Nat) {t : Team}
    (ht : findTeam db id = some t) :
    updateTeamF db id f now = some ({ (f t) with updatedAt := now },
      { db with
          teams := db.teams.map
            (fun x => if x.id == id then { (f t) with updatedAt := now } else x) }) := by
  unfold updateTeamF
  unfold findTeam at ht
  rw [ht]

lemma findTeam_map_update {ts : List Team} {id : String} {u : Team} (hu : u.id = id)
    {rid : String} (hne : rid ≠ id) :
    (ts.map (fun x => if x.id == id then u else x)).find? (fun x => x.id == rid) =
      ts.find? (fun x => x.id == rid) := by
  induction ts with
  | nil => rfl
  | cons x rest ih =>
    simp only [List.map_cons]
    by_cases hx : (x.id == id) = true
    · rw [if_pos hx]
      have hxid : x.id = id := by simpa using hx
      have h1 : ¬(u.id == rid) = true := by simp [hu]; exact fun h => hne h.symm
      have h2 : ¬(x.id == rid) = true := by simp [hxid]; exact fun h => hne h.symm
      simp only [List.find?_cons, h1, h2]
      exact ih
    · rw [if_neg hx]
      by_cases hr : (x.id == rid) = true
      · simp only [List.find?_cons, hr]
      · simp only [List.find?_cons, hr]
        exact ih

lemma keys_incrementKeyUsage (db : DBState) (code : String) :
    (incrementKeyUsage db code).keys = bumpKeys db.keys code := by
  unfold incrementKeyUsage bumpKeys getAccessKey
  cases hf : db.keys.find? (fun k => k.code == code) with
  | some k => simp
  | none =>
    simp only
    have hall := List.find?_eq_none.mp hf
    conv_lhs => rw [← List.map_id db.keys]
    apply List.map_congr_left
    intro a ha
    have hac : ¬(a.code == code) = true := hall a ha
    simp [hac]

lemma incrementKeyUsage_fields (db : DBState) (code : String) :
    (incrementKeyUsage db code).teams = db.teams ∧
    (incrementKeyUsage db code).invitations = db.invitations ∧
    (incrementKeyUsage db code).emailIndex = db.emailIndex ∧
    (incrementKeyUsage db code).nextId = db.nextId := by
  unfold incrementKeyUsage
  cases hf : getAccessKey db code <;> simp

lemma getAccessKey_bumpKeys {ks : List AccessKey} {code : String} {k : AccessKey}
    (hf : ks.find? (fun x => x.code == code) = some k) :
    (bumpKeys ks code).find? (fun x => x.code == code) =
      some { k with usageCount := k.usageCount + 1 } := by
  induction ks with
  | nil => simp at hf
  | cons x rest ih =>
    unfold bumpKeys
    simp only [List.map_cons]
    by_cases hx : (x.code == code) = true
    · simp only [List.find?_cons, hx] at hf
      rw [if_pos hx]
      have hx2 : (AccessKey.code { x with usageCount := x.usageCount + 1 } == code) = true := hx
      simp only [List.find?_cons, hx2]
      simp at hf
      rw [hf]
    · simp only [List.find?_cons, hx] at hf
      rw [if_neg hx]
      have hx2 : (x.code == code) = false := by simpa using hx
      simp only [List.find?_cons, hx2]
      exact ih hf

lemma bumpKeys_no_key {ks : List AccessKey} {code : String}
    (hf : ks.find? (fun x => x.code == code) = none) :
    bumpKeys ks code = ks := by
  unfold bumpKeys
  have hall := List.find?_eq_none.mp hf
  conv_rhs => rw [← List.map_id ks]
  apply List.map_congr_left
  intro a ha
  have hac : ¬(a.code == code) = true := hall a ha
  simp [hac]

/-! ## Step lemmas for the join scan -/


lemma joinScan_cons_expired {remote : Remote} {now : Nat} {ne em kc : String} {key : AccessKey}
    {t : Team} {rest : List Team} {db : DBState} {sel : Option Team}
    (h : (t.tokenStatus == TokenStatus.expired) = true) :
    joinScan remote now ne em kc key (t :: rest) db sel =
      joinScan remote now ne em kc key rest db sel := by
  rw [joinScan]
  rw [if_pos h]

lemma joinScan_cons_fetchFail {remote : Remote} {now : Nat} {ne em kc : String}
    {key : AccessKey} {t : Team} {rest : List Team} {db : DBState} {sel : Option Team}
    (hexp : (t.tokenStatus == TokenStatus.expired) = false)
    (hf : remote.fetchMembers t.accessToken t.accountId = none)
    (ht : findTeam db t.id = some t) :
    joinScan remote now ne em kc key (t :: rest) db sel =
      joinScan remote now ne em kc key rest
        { db with
            teams := db.teams.map (fun x => if x.id == t.id then
              { t with tokenStatus := TokenStatus.expired, updatedAt := now } else x) } sel := by
  rw [joinScan]
  rw [if_neg (by simp [hexp]), hf]
  rw [updateTeamF_spec (fun u => { u with tokenStatus := TokenStatus.expired }) now ht]

lemma joinScan_cons_fetchOk_nomatch {remote : Remote} {now : Nat} {ne em kc : String}
    {key : AccessKey} {t : Team} {rest : List Team} {db : DBState} {sel : Option Team}
    {members : List Member}
    (hexp : (t.tokenStatus == TokenStatus.expired) = false)
    (hf : remote.fetchMembers t.accessToken t.accountId = some members)
    (ht : findTeam db t.id = some t)
    (hc : (rosterEmails members).contains ne = false) :
    joinScan remote now ne em kc key (t :: rest) db sel =
      joinScan remote now ne em kc key rest
        { db with
            teams := db.teams.map (fun x => if x.id == t.id then
              { t with
                memberCount := (members.filter (fun m => m.role != "account-owner")).length,
                tokenStatus := TokenStatus.active, updatedAt := now } else x) }
        (if decide ((members.filter (fun m => m.role != "account-owner")).length < 4) && sel.isNone
         then some { t with
              memberCount := (members.filter (fun m => m.role != "account-owner")).length,
              tokenStatus := TokenStatus.active, updatedAt := now }
         else sel) := by
  rw [joinScan]
  rw [if_neg (by simp [hexp])]
  simp only [hf]
  rw [updateTeamF_spec
    (fun u => { u with
      memberCount := (members.filter (fun m => m.role != "account-owner")).length,
      tokenStatus := TokenStatus.active }) now ht]
  have hc2 : ((((members.filter (fun m => m.role != "account-owner")).map
      (fun m => lowerStr m.email)).filter (fun e => e != "")).contains ne) = false := hc
  simp only [hc2]
  rw [if_neg (by simp)]

lemma joinScan_cons_fetchOk_match {remote : Remote} {now : Nat} {ne em kc : String}
    {key : AccessKey} {t : Team} {rest : List Team} {db : DBState} {sel : Option Team}
    {members : List Member}
    (hexp : (t.tokenStatus == TokenStatus.expired) = false)
    (hf : remote.fetchMembers t.accessToken t.accountId = some members)
    (ht : findTeam db t.id = some t)
    (hc : (rosterEmails members).contains ne = true) :
    joinScan remote now ne em kc key (t :: rest) db sel =
      ⟨ScanRes.matched t.name,
       incrementKeyUsage
         ((createInvitation
            { db with
                teams := db.teams.map (fun x => if x.id == t.id then
                  { t with
                    memberCount := (members.filter (fun m => m.role != "account-owner")).length,
                    tokenStatus := TokenStatus.active, updatedAt := now } else x) }
            ⟨t.id, em, some kc, InvStatus.success, key.isTemp,
             if key.isTemp then some (now + tempHoursOr24 key.tempHours * 3600000) else none,
             false⟩ now).2) kc⟩ := by
  rw [joinScan]
  rw [if_neg (by simp [hexp])]
  simp only [hf]
  rw [updateTeamF_spec
    (fun u => { u with
      memberCount := (members.filter (fun m => m.role != "account-owner")).length,
      tokenStatus := TokenStatus.active }) now ht]
  have hc2 : ((((members.filter (fun m => m.role != "account-owner")).map
      (fun m => lowerStr m.email)).filter (fun e => e != "")).contains ne) = true := hc
  simp only [hc2]
  rw [if_pos trivial]

/-! ## Scan characterization -/


lemma createInvitation_snd (db : DBState) (inv : NewInvitation) (now : Nat) :
    (createInvitation db inv now).2 =
      { db with
          invitations := db.invitations ++ [(createInvitation db inv now).1]
          emailIndex := indexSet db.emailIndex (lowerStr (trimStr inv.email), inv.teamId)
            (genId db.nextId)
          nextId := db.nextId + 1 } := rfl

lemma createInvitation_fst (db : DBState) (inv : NewInvitation) (now : Nat) :
    (createInvitation db inv now).1 =
      { id := genId db.nextId, teamId := inv.teamId, email := lowerStr (trimStr inv.email)
        keyCode := inv.keyCode, status := inv.status, isTemp := inv.isTemp
        tempExpireAt := inv.tempExpireAt, isConfirmed := inv.isConfirmed
        createdAt := now } := rfl

lemma nodup_ids_head {t : Team} {rest : List Team}
    (hnd : ((t :: rest).map (fun x => x.id)).Nodup) :
    ∀ r ∈ rest, r.id ≠ t.id := by
  intro r hr heq
  simp only [List.map_cons, List.nodup_cons] at hnd
  exact hnd.1 (heq ▸ List.mem_map_of_mem (fun x => x.id) hr)

lemma findTeam_after_update {db : DBState} {t u : Team} (hu : u.id = t.id)
    {r : Team} (hne : r.id ≠ t.id) (hr : findTeam db r.id = some r) :
    findTeam { db with teams := db.teams.map (fun x => if x.id == t.id then u else x) }
      r.id = some r := by
  unfold findTeam at hr ⊢
  simp only
  rw [findTeam_map_update hu hne]
  exact hr

/-- Characterization of the join scan when no team's roster contains the
normalized email: the scan finishes, the candidate is the previously
selected one or else the first eligible under-capacity team, and neither
the key store nor the invitation ledger is touched. -/
lemma joinScan_no_match (remote : Remote) (now : Nat) (ne em kc : String) (key : AccessKey) :
    ∀ (L : List Team) (db : DBState) (sel : Option Team),
      (L.map (fun x => x.id)).Nodup →
      (∀ r ∈ L, findTeam db r.id = some r) →
      L.find? (teamMatches remote ne) = none →
      (joinScan remote now ne em kc key L db sel).res =
          ScanRes.finished
            (sel.or ((L.find? (candTeamOK remote)).map (refreshedOf remote now))) ∧
      (joinScan remote now ne em kc key L db sel).db.keys = db.keys ∧
      (joinScan remote now ne em kc key L db sel).db.invitations = db.invitations ∧
      (joinScan remote now ne em kc key L db sel).db.nextId = db.nextId ∧
      (joinScan remote now ne em kc key L db sel).db.emailIndex = db.emailIndex := by
  intro L
  induction L with
  | nil =>
    intro db sel _ _ _
    refine ⟨?_, rfl, rfl, rfl, rfl⟩
    show ScanRes.finished sel = _
    simp
  | cons t rest ih =>
    intro db sel hnd hfind hm
    have hndr : (rest.map (fun x => x.id)).Nodup := by
      simp only [List.map_cons, List.nodup_cons] at hnd
      exact hnd.2
    simp only [List.find?_cons] at hm
    rcases hmt : teamMatches remote ne t with _ | _
    case false =>
      rw [hmt] at hm
      have hmr : rest.find? (teamMatches remote ne) = none := hm
      by_cases hexp : (t.tokenStatus == TokenStatus.expired) = true
      · have hcand : candTeamOK remote t = false := by
          unfold candTeamOK
          rw [hexp]
          rfl
        rw [joinScan_cons_expired hexp]
        have hres := ih db sel hndr (fun r hr => hfind r (List.mem_cons_of_mem t hr)) hmr
        refine ⟨?_, hres.2.1, hres.2.2.1, hres.2.2.2.1, hres.2.2.2.2⟩
        rw [hres.1]
        simp only [List.find?_cons, hcand]
      · have hexp' : (t.tokenStatus == TokenStatus.expired) = false := by
          simpa using hexp
        have ht : findTeam db t.id = some t := hfind t (List.mem_cons_self t rest)
        rcases hfm : remote.fetchMembers t.accessToken t.accountId with _ | members
        · -- fetch failure: team marked expired, scan continues
          have hcand : candTeamOK remote t = false := by
            unfold candTeamOK
            rw [hexp', hfm]
            rfl
          rw [joinScan_cons_fetchFail hexp' hfm ht]
          have hfind' : ∀ r ∈ rest,
              findTeam { db with teams := db.teams.map (fun x => if x.id == t.id then
                { t with tokenStatus := TokenStatus.expired, updatedAt := now } else x) }
                r.id = some r := by
            intro r hr
            refine findTeam_after_update ?_ (nodup_ids_head hnd r hr)
              (hfind r (List.mem_cons_of_mem t hr))
            rfl
          have hres := ih _ sel hndr hfind' hmr
          refine ⟨?_, hres.2.1, hres.2.2.1, hres.2.2.2.1, hres.2.2.2.2⟩
          rw [hres.1]
          simp only [List.find?_cons, hcand]
        · -- fetch success, no roster match for this team
          have hcon : (rosterEmails members).contains ne = false := by
            unfold teamMatches at hmt
            rw [hexp', hfm] at hmt
            simpa using hmt
          rw [joinScan_cons_fetchOk_nomatch hexp' hfm ht hcon]
          have hfind' : ∀ r ∈ rest,
              findTeam { db with teams := db.teams.map (fun x => if x.id == t.id then
                { t with
                  memberCount := (members.filter (fun m => m.role != "account-owner")).length,
                  tokenStatus := TokenStatus.active, updatedAt := now } else x) }
                r.id = some r := by
            intro r hr
            refine findTeam_after_update ?_ (nodup_ids_head hnd r hr)
              (hfind r (List.mem_cons_of_mem t hr))
            rfl
          have hres := ih _
            (if decide ((members.filter (fun m => m.role != "account-owner")).length < 4)
                && sel.isNone
             then some { t with
                memberCount := (members.filter (fun m => m.role != "account-owner")).length,
                tokenStatus := TokenStatus.active, updatedAt := now }
             else sel) hndr hfind' hmr
          refine ⟨?_, hres.2.1, hres.2.2.1, hres.2.2.2.1, hres.2.2.2.2⟩
          rw [hres.1]
          by_cases hlt : decide ((members.filter (fun m => m.role != "account-owner")).length < 4)
              = true
          · have hcand : candTeamOK remote t = true := by
              unfold candTeamOK
              rw [hexp', hfm]
              simpa using hlt
            have hrefr : refreshedOf remote now t =
                { t with
                  memberCount := (members.filter (fun m => m.role != "account-owner")).length,
                  tokenStatus := TokenStatus.active, updatedAt := now } := by
              unfold refreshedOf
              rw [hfm]
            simp only [List.find?_cons, hcand, hlt, Bool.true_and, Option.map_some]
            cases sel with
            | none => simp [hrefr]
            | some s => simp
          · have hcand : candTeamOK remote t = false := by
              unfold candTeamOK
              rw [hexp', hfm]
              simpa using hlt
            have hlt' : decide ((members.filter (fun m => m.role != "account-owner")).length < 4)
                = false := by simpa using hlt
            simp only [List.find?_cons, hcand, hlt', Bool.false_and, if_neg]
            simp
    case true =>
      rw [hmt] at hm
      exact absurd hm (by simp)

/-- Characterization of the join scan when some team's roster contains the
normalized email: the scan returns `matched` for the first such team,
bumps the key's usage count, and appends exactly the invitation record
the handler builds. -/
lemma joinScan_match (remote : Remote) (now : Nat) (ne em kc : String) (key : AccessKey) :
    ∀ (L : List Team) (db : DBState) (sel : Option Team) (t0 : Team),
      (L.map (fun x => x.id)).Nodup →
      (∀ r ∈ L, findTeam db r.id = some r) →
      L.find? (teamMatches remote ne) = some t0 →
      (joinScan remote now ne em kc key L db sel).res = ScanRes.matched t0.name ∧
      (joinScan remote now ne em kc key L db sel).db.keys = bumpKeys db.keys kc ∧
      (joinScan remote now ne em kc key L db sel).db.invitations =
        db.invitations ++ [mkJoinInvitation db.nextId t0.id em kc key now] ∧
      (joinScan remote now ne em kc key L db sel).db.nextId = db.nextId + 1 := by
  intro L
  induction L with
  | nil =>
    intro db sel t0 _ _ hm
    simp at hm
  | cons t rest ih =>
    intro db sel t0 hnd hfind hm
    have hndr : (rest.map (fun x => x.id)).Nodup := by
      simp only [List.map_cons, List.nodup_cons] at hnd
      exact hnd.2
    simp only [List.find?_cons] at hm
    rcases hmt : teamMatches remote ne t with _ | _
    case true =>
      rw [hmt] at hm
      have ht0 : t0 = t := by simpa using hm.symm
      rw [ht0]
      -- unpack teamMatches
      have hexp' : (t.tokenStatus == TokenStatus.expired) = false := by
        unfold teamMatches at hmt
        rcases h : (t.tokenStatus == TokenStatus.expired) with _ | _
        · rfl
        · rw [h] at hmt; simp at hmt
      rcases hfm : remote.fetchMembers t.accessToken t.accountId with _ | members
      · unfold teamMatches at hmt
        rw [hexp', hfm] at hmt
        simp at hmt
      · have hcon : (rosterEmails members).contains ne = true := by
          unfold teamMatches at hmt
          rw [hexp', hfm] at hmt
          simpa using hmt
        have ht : findTeam db t.id = some t := hfind t (List.mem_cons_self t rest)
        rw [joinScan_cons_fetchOk_match hexp' hfm ht hcon]
        refine ⟨rfl, ?_, ?_, ?_⟩
        · rw [keys_incrementKeyUsage]
          rfl
        · rw [(incrementKeyUsage_fields _ kc).2.1]
          rfl
        · rw [(incrementKeyUsage_fields _ kc).2.2.2]
          rfl
    case false =>
      rw [hmt] at hm
      by_cases hexp : (t.tokenStatus == TokenStatus.expired) = true
      · rw [joinScan_cons_expired hexp]
        exact ih db sel t0 hndr (fun r hr => hfind r (List.mem_cons_of_mem t hr)) hm
      · have hexp' : (t.tokenStatus == TokenStatus.expired) = false := by simpa using hexp
        have ht : findTeam db t.id = some t := hfind t (List.mem_cons_self t rest)
        rcases hfm : remote.fetchMembers t.accessToken t.accountId with _ | members
        · rw [joinScan_cons_fetchFail hexp' hfm ht]
          have hfind' : ∀ r ∈ rest,
              findTeam { db with teams := db.teams.map (fun x => if x.id == t.id then
                { t with tokenStatus := TokenStatus.expired, updatedAt := now } else x) }
                r.id = some r := by
            intro r hr
            refine findTeam_after_update ?_ (nodup_ids_head hnd r hr)
              (hfind r (List.mem_cons_of_mem t hr))
            rfl
          exact ih _ sel t0 hndr hfind' hm
        · have hcon : (rosterEmails members).contains ne = false := by
            unfold teamMatches at hmt
            rw [hexp', hfm] at hmt
            simpa using hmt
          rw [joinScan_cons_fetchOk_nomatch hexp' hfm ht hcon]
          have hfind' : ∀ r ∈ rest,
              findTeam { db with teams := db.teams.map (fun x => if x.id == t.id then
                { t with
                  memberCount := (members.filter (fun m => m.role != "account-owner")).length,
                  tokenStatus := TokenStatus.active, updatedAt := now } else x) }
                r.id = some r := by
            intro r hr
            refine findTeam_after_update ?_ (nodup_ids_head hnd r hr)
              (hfind r (List.mem_cons_of_mem t hr))
            rfl
          exact ih _
            (if decide ((members.filter (fun m => m.role != "account-owner")).length < 4)
                && sel.isNone
             then some { t with
                memberCount := (members.filter (fun m => m.role != "account-owner")).length,
                tokenStatus := TokenStatus.active, updatedAt := now }
             else sel) t0 hndr hfind' hm

/-! ## Join handler lemmas -/


lemma find?_id_self {ts : List Team} (hnd : (ts.map (fun x => x.id)).Nodup) {r : Team}
    (hr : r ∈ ts) : ts.find? (fun x => x.id == r.id) = some r := by
  induction ts with
  | nil => cases hr
  | cons x rest ih =>
    simp only [List.map_cons, List.nodup_cons] at hnd
    rcases List.mem_cons.mp hr with rfl | hr'
    · simp only [List.find?_cons, show (r.id == r.id) = true by simp]
    · have hne : (x.id == r.id) = false := by
        simp only [beq_eq_false_iff_ne]
        intro h
        exact hnd.1 (h ▸ List.mem_map_of_mem (fun y => y.id) hr')
      simp only [List.find?_cons, hne]
      exact ih hnd.2 hr'

lemma listTeams_perm (ts : List Team) : (listTeams ts).Perm ts :=
  List.mergeSort_perm ts _

lemma listTeams_nodup_ids {ts : List Team} (hnd : (ts.map (fun x => x.id)).Nodup) :
    ((listTeams ts).map (fun x => x.id)).Nodup :=
  (((listTeams_perm ts).map (fun x => x.id)).nodup_iff).mpr hnd

lemma listTeams_findTeam {db : DBState} (hnd : (db.teams.map (fun x => x.id)).Nodup) :
    ∀ r ∈ listTeams db.teams, findTeam db r.id = some r := by
  intro r hr
  exact find?_id_self hnd ((listTeams_perm db.teams).mem_iff.mp hr)

lemma updateTeamF_some_fields {db : DBState} {id : String} {f : Team → Team} {now : Nat}
    {u : Team} {db' : DBState} (h : updateTeamF db id f now = some (u, db')) :
    db'.keys = db.keys ∧ db'.invitations = db.invitations ∧ db'.nextId = db.nextId ∧
    db'.emailIndex = db.emailIndex ∧ db'.kickLogs = db.kickLogs := by
  unfold updateTeamF at h
  cases hf : db.teams.find? (fun t => t.id == id) with
  | none => rw [hf] at h; simp at h
  | some t =>
    rw [hf] at h
    simp only [Option.some_inj] at h
    injection h with h1 h2
    subst h1
    subst h2
    exact ⟨rfl, rfl, rfl, rfl, rfl⟩

lemma join_cond_false {email kc : String} (he : email ≠ "") (hk : kc ≠ "") :
    (email == "" || kc == "") = false := by
  simp [he, hk]

lemma join_of_scan_matched {db : DBState} {remote : Remote} {now : Nat} {email kc : String}
    {key : AccessKey} {name : String} {dbOut : DBState}
    (he : email ≠ "") (hk : kc ≠ "")
    (hkey : getAccessKey db kc = some key)
    (hreuse : (!key.isUnlimited && !key.isTemp && decide (key.usageCount > 0)) = false)
    (hsc : joinScan remote now (lowerStr email) email kc key (listTeams db.teams) db none =
      ⟨ScanRes.matched name, dbOut⟩) :
    join db remote now email kc = ⟨JoinResult.alreadyMember name, dbOut, []⟩ := by
  unfold join
  rw [join_cond_false he hk]
  simp only [hkey, hreuse, hsc]
  rfl

lemma join_of_scan_finished_none {db : DBState} {remote : Remote} {now : Nat}
    {email kc : String} {key : AccessKey} {dbOut : DBState}
    (he : email ≠ "") (hk : kc ≠ "")
    (hkey : getAccessKey db kc = some key)
    (hreuse : (!key.isUnlimited && !key.isTemp && decide (key.usageCount > 0)) = false)
    (hsc : joinScan remote now (lowerStr email) email kc key (listTeams db.teams) db none =
      ⟨ScanRes.finished none, dbOut⟩) :
    join db remote now email kc = ⟨JoinResult.noAvailableTeams, dbOut, []⟩ := by
  unfold join
  rw [join_cond_false he hk]
  simp only [hkey, hreuse, hsc]
  rfl

lemma join_of_scan_inviteOk {db : DBState} {remote : Remote} {now : Nat}
    {email kc : String} {key : AccessKey} {st : Team} {dbOut : DBState} {u : Team}
    {db3 : DBState}
    (he : email ≠ "") (hk : kc ≠ "")
    (hkey : getAccessKey db kc = some key)
    (hreuse : (!key.isUnlimited && !key.isTemp && decide (key.usageCount > 0)) = false)
    (hsc : joinScan remote now (lowerStr email) email kc key (listTeams db.teams) db none =
      ⟨ScanRes.finished (some st), dbOut⟩)
    (hinv : remote.invite st.accessToken st.accountId email = none)
    (hupd : updateTeamF
        (incrementKeyUsage
          ((createInvitation dbOut
            ⟨st.id, email, some kc, InvStatus.success, key.isTemp,
             if key.isTemp then some (now + tempHoursOr24 key.tempHours * 3600000) else none,
             false⟩ now).2) kc)
        st.id
        (fun x => { x with memberCount := st.memberCount + 1, lastInviteAt := some now })
        now = some (u, db3)) :
    join db remote now email kc = ⟨JoinResult.inviteSent, db3, [(st.accountId, email)]⟩ := by
  unfold join
  rw [join_cond_false he hk]
  simp only [hkey, hreuse, hsc, hinv, hupd]
  rfl

lemma join_of_scan_inviteFail {db : DBState} {remote : Remote} {now : Nat}
    {email kc : String} {key : AccessKey} {st : Team} {dbOut : DBState} {msg : String}
    (he : email ≠ "") (hk : kc ≠ "")
    (hkey : getAccessKey db kc = some key)
    (hreuse : (!key.isUnlimited && !key.isTemp && decide (key.usageCount > 0)) = false)
    (hsc : joinScan remote now (lowerStr email) email kc key (listTeams db.teams) db none =
      ⟨ScanRes.finished (some st), dbOut⟩)
    (hinv : remote.invite st.accessToken st.accountId email = some msg) :
    (join db remote now email kc).res = JoinResult.inviteFailed ("Invite failed: " ++ msg) ∨
    (join db remote now email kc).res = JoinResult.thrown "Team not found" := by
  unfold join
  rw [join_cond_false he hk]
  simp only [hkey, hreuse, hsc, hinv]
  by_cases h4 : (containsSub msg "401" || containsSub msg "expired") = true
  · rw [if_pos h4]
    cases hupd : updateTeamF dbOut st.id
        (fun x => { x with tokenStatus := TokenStatus.expired }) now with
    | none => right; rfl
    | some p =>
      obtain ⟨u, db1⟩ := p
      left; rfl
  · rw [if_neg h4]
    left; rfl


lemma reuse_cond_false {key : AccessKey}
    (h : key.isUnlimited = true ∨ key.isTemp = true ∨ key.usageCount = 0) :
    (!key.isUnlimited && !key.isTemp && decide (key.usageCount > 0)) = false := by
  rcases h with h | h | h <;> simp [h]

lemma join_keyused {db : DBState} {remote : Remote} {now : Nat} {email kc : String}
    {key : AccessKey} (he : email ≠ "") (hk : kc ≠ "")
    (hkey : getAccessKey db kc = some key)
    (hcond : (!key.isUnlimited && !key.isTemp && decide (key.usageCount > 0)) = true) :
    (join db remote now email kc).res = JoinResult.keyAlreadyUsed := by
  unfold join
  rw [join_cond_false he hk]
  simp only [hkey, hcond]
  rfl

/-- Whatever happens after the key checks, the result is never
`keyAlreadyUsed`. -/
lemma join_res_not_keyused {db : DBState} {remote : Remote} {now : Nat} {email kc : String}
    {key : AccessKey} (he : email ≠ "") (hk : kc ≠ "")
    (hkey : getAccessKey db kc = some key)
    (hcond : (!key.isUnlimited && !key.isTemp && decide (key.usageCount > 0)) = false) :
    (join db remote now email kc).res ≠ JoinResult.keyAlreadyUsed := by
  rcases hsc : joinScan remote now (lowerStr email) email kc key (listTeams db.teams) db none
    with ⟨res, dbOut⟩
  cases res with
  | matched name =>
    rw [join_of_scan_matched he hk hkey hcond hsc]
    simp
  | thrown msg =>
    unfold join
    rw [join_cond_false he hk]
    simp only [hkey, hcond, hsc]
    simp
  | finished sel =>
    cases sel with
    | none =>
      rw [join_of_scan_finished_none he hk hkey hcond hsc]
      simp
    | some st =>
      cases hinv : remote.invite st.accessToken st.accountId email with
      | none =>
        cases hupd : updateTeamF
            (incrementKeyUsage
              ((createInvitation dbOut
                ⟨st.id, email, some kc, InvStatus.success, key.isTemp,
                 if key.isTemp then some (now + tempHoursOr24 key.tempHours * 3600000)
                 else none,
                 false⟩ now).2) kc)
            st.id
            (fun x => { x with memberCount := st.memberCount + 1, lastInviteAt := some now })
            now with
        | none =>
          unfold join
          rw [join_cond_false he hk]
          simp only [hkey, hcond, hsc, hinv, hupd]
          simp
        | some p =>
          obtain ⟨u, db3⟩ := p
          rw [join_of_scan_inviteOk he hk hkey hcond hsc hinv hupd]
          simp
      | some msg =>
        rcases join_of_scan_inviteFail he hk hkey hcond hsc hinv with h | h <;>
          rw [h] <;> simp

/-- After a successful join (already-a-member or invite sent), the key's
usage count is incremented by exactly one. -/
lemma join_success_key {db : DBState} {remote : Remote} {now : Nat} {email kc : String}
    {key : AccessKey} (he : email ≠ "") (hk : kc ≠ "")
    (hkey : getAccessKey db kc = some key)
    (hnd : (db.teams.map (fun x => x.id)).Nodup)
    (hsucc : (∃ n, (join db remote now email kc).res = JoinResult.alreadyMember n) ∨
      (join db remote now email kc).res = JoinResult.inviteSent) :
    getAccessKey (join db remote now email kc).db kc =
      some { key with usageCount := key.usageCount + 1 } := by
  by_cases hcond : (!key.isUnlimited && !key.isTemp && decide (key.usageCount > 0)) = true
  · exfalso
    have h := @join_keyused db remote now email kc key he hk hkey hcond
    rcases hsucc with ⟨n, hn⟩ | hn <;> rw [h] at hn <;> exact JoinResult.noConfusion hn
  · have hcond' : (!key.isUnlimited && !key.isTemp && decide (key.usageCount > 0)) = false := by
      simpa using hcond
    have hnd' := listTeams_nodup_ids hnd
    have hfind' := listTeams_findTeam hnd
    rcases hsc : joinScan remote now (lowerStr email) email kc key (listTeams db.teams) db none
      with ⟨res, dbOut⟩
    cases hm : (listTeams db.teams).find? (teamMatches remote (lowerStr email)) with
    | some t =>
      have hchar := joinScan_match remote now (lowerStr email) email kc key
        (listTeams db.teams) db none t hnd' hfind' hm
      rw [hsc] at hchar
      obtain ⟨h1, h2, -, -⟩ := hchar
      simp only at h1 h2
      subst h1
      rw [join_of_scan_matched he hk hkey hcond' hsc]
      show dbOut.keys.find? (fun k => k.code == kc) = _
      rw [h2]
      exact getAccessKey_bumpKeys hkey
    | none =>
      have hchar := joinScan_no_match remote now (lowerStr email) email kc key
        (listTeams db.teams) db none hnd' hfind' hm
      rw [hsc] at hchar
      obtain ⟨h1, h2, -, -, -⟩ := hchar
      simp only at h1 h2
      subst h1
      cases hcand : ((listTeams db.teams).find? (candTeamOK remote)).map
          (refreshedOf remote now) with
      | none =>
        rw [hcand] at hsc
        rw [join_of_scan_finished_none he hk hkey hcond' (by simpa using hsc)] at hsucc
        rcases hsucc with ⟨n, hn⟩ | hn <;> exact JoinResult.noConfusion hn
      | some st =>
        rw [hcand] at hsc
        have hsc' : joinScan remote now (lowerStr email) email kc key (listTeams db.teams)
            db none = ⟨ScanRes.finished (some st), dbOut⟩ := by simpa using hsc
        cases hinv : remote.invite st.accessToken st.accountId email with
        | none =>
          cases hupd : updateTeamF
              (incrementKeyUsage
                ((createInvitation dbOut
                  ⟨st.id, email, some kc, InvStatus.success, key.isTemp,
                   if key.isTemp then some (now + tempHoursOr24 key.tempHours * 3600000)
                   else none,
                   false⟩ now).2) kc)
              st.id
              (fun x => { x with memberCount := st.memberCount + 1, lastInviteAt := some now })
              now with
          | none =>
            exfalso
            have : (join db remote now email kc).res = JoinResult.thrown "Team not found" := by
              unfold join
              rw [join_cond_false he hk]
              simp only [hkey, hcond', hsc', hinv, hupd]
              rfl
            rcases hsucc with ⟨n, hn⟩ | hn <;> rw [this] at hn <;> exact JoinResult.noConfusion hn
          | some p =>
            obtain ⟨u, db3⟩ := p
            rw [join_of_scan_inviteOk he hk hkey hcond' hsc' hinv hupd]
            show db3.keys.find? (fun k => k.code == kc) = _
            have hk3 := (updateTeamF_some_fields hupd).1
            rw [hk3, keys_incrementKeyUsage]
            have : ((createInvitation dbOut
                ⟨st.id, email, some kc, InvStatus.success, key.isTemp,
                 if key.isTemp then some (now + tempHoursOr24 key.tempHours * 3600000)
                 else none,
                 false⟩ now).2).keys = dbOut.keys := rfl
            rw [this, h2]
            exact getAccessKey_bumpKeys hkey
        | some msg =>
          exfalso
          rcases join_of_scan_inviteFail he hk hkey hcond' hsc' hinv with h | h <;>
            rcases hsucc with ⟨n, hn⟩ | hn <;> rw [h] at hn <;> exact JoinResult.noConfusion hn

/-! ## Claim theorems: allocation -/


/-- C5: if some live roster already contains the normalized email, `join`
returns success naming the first such team, issues no remote invite,
still creates an Invitation record (with a fresh temp-expiry when the key
is temp), and increments the key's usage count. -/
theorem C5_already_member_short_circuit (db : DBState) (remote : Remote) (now : Nat)
    (email kc : String) (key : AccessKey) (t : Team)
    (he : email ≠ "") (hk : kc ≠ "")
    (hkey : getAccessKey db kc = some key)
    (hreuse : key.isUnlimited = true ∨ key.isTemp = true ∨ key.usageCount = 0)
    (hnd : (db.teams.map (fun x => x.id)).Nodup)
    (hmatch : (listTeams db.teams).find? (teamMatches remote (lowerStr email)) = some t) :
    (join db remote now email kc).res = JoinResult.alreadyMember t.name ∧
    (join db remote now email kc).invites = [] ∧
    (join db remote now email kc).db.invitations =
      db.invitations ++ [mkJoinInvitation db.nextId t.id email kc key now] ∧
    getAccessKey (join db remote now email kc).db kc =
      some { key with usageCount := key.usageCount + 1 } := by
  have hcond := reuse_cond_false hreuse
  have hnd' := listTeams_nodup_ids hnd
  have hfind' := listTeams_findTeam hnd
  rcases hsc : joinScan remote now (lowerStr email) email kc key (listTeams db.teams) db none
    with ⟨res, dbOut⟩
  have hchar := joinScan_match remote now (lowerStr email) email kc key
    (listTeams db.teams) db none t hnd' hfind' hmatch
  rw [hsc] at hchar
  obtain ⟨h1, h2, h3, -⟩ := hchar
  simp only at h1 h2 h3
  subst h1
  rw [join_of_scan_matched he hk hkey hcond hsc]
  refine ⟨rfl, rfl, h3, ?_⟩
  show dbOut.keys.find? (fun k => k.code == kc) = _
  rw [h2]
  exact getAccessKey_bumpKeys hkey

/-- C6: the scan's already-a-member short-circuit fires for the first team
whose roster contains the normalized email even when an earlier team was
already selected as invite candidate, and otherwise the scan finishes
with the first eligible under-capacity team as candidate; a later
under-capacity team never replaces it. -/
theorem C6_candidate_selection (db : DBState) (remote : Remote) (now : Nat)
    (email kc : String) (key : AccessKey)
    (hnd : (db.teams.map (fun x => x.id)).Nodup) :
    (joinScan remote now (lowerStr email) email kc key (listTeams db.teams) db none).res =
      match (listTeams db.teams).find? (teamMatches remote (lowerStr email)) with
      | some t => ScanRes.matched t.name
      | none => ScanRes.finished
          (((listTeams db.teams).find? (candTeamOK remote)).map (refreshedOf remote now)) := by
  have hnd' := listTeams_nodup_ids hnd
  have hfind' := listTeams_findTeam hnd
  cases hm : (listTeams db.teams).find? (teamMatches remote (lowerStr email)) with
  | some t =>
    exact (joinScan_match remote now (lowerStr email) email kc key
      (listTeams db.teams) db none t hnd' hfind' hm).1
  | none =>
    have h := (joinScan_no_match remote now (lowerStr email) email kc key
      (listTeams db.teams) db none hnd' hfind' hm).1
    rw [h]
    simp

/-- C7: when no roster contains the email and no team is under capacity,
`join` fails with `NoAvailableTeams`, creates no Invitation, and leaves
the key store (hence the key's usage count) unchanged. -/
theorem C7_no_available_teams (db : DBState) (remote : Remote) (now : Nat)
    (email kc : String) (key : AccessKey)
    (he : email ≠ "") (hk : kc ≠ "")
    (hkey : getAccessKey db kc = some key)
    (hreuse : key.isUnlimited = true ∨ key.isTemp = true ∨ key.usageCount = 0)
    (hnd : (db.teams.map (fun x => x.id)).Nodup)
    (hnomatch : (listTeams db.teams).find? (teamMatches remote (lowerStr email)) = none)
    (hnocand : (listTeams db.teams).find? (candTeamOK remote) = none) :
    (join db remote now email kc).res = JoinResult.noAvailableTeams ∧
    (join db remote now email kc).invites = [] ∧
    (join db remote now email kc).db.invitations = db.invitations ∧
    (join db remote now email kc).db.keys = db.keys ∧
    getAccessKey (join db remote now email kc).db kc = some key := by
  have hcond := reuse_cond_false hreuse
  have hnd' := listTeams_nodup_ids hnd
  have hfind' := listTeams_findTeam hnd
  rcases hsc : joinScan remote now (lowerStr email) email kc key (listTeams db.teams) db none
    with ⟨res, dbOut⟩
  have hchar := joinScan_no_match remote now (lowerStr email) email kc key
    (listTeams db.teams) db none hnd' hfind' hnomatch
  rw [hsc] at hchar
  obtain ⟨h1, h2, h3, -, -⟩ := hchar
  simp only at h1 h2 h3
  rw [hnocand] at h1
  have h1' : res = ScanRes.finished none := h1
  subst h1'
  rw [join_of_scan_finished_none he hk hkey hcond hsc]
  refine ⟨rfl, rfl, h3, h2, ?_⟩
  show dbOut.keys.find? (fun k => k.code == kc) = _
  rw [h2]
  exact hkey


/-- C3: for an existing key, `join` fails with `KeyAlreadyUsed` exactly
when the key is neither unlimited nor temp and has been used before; in
particular, after one successful use of a single-use key, every further
`join` with it returns `KeyAlreadyUsed`. -/
theorem C3_single_use_enforcement (db : DBState) (remote : Remote) (now : Nat)
    (email kc : String) (key : AccessKey)
    (he : email ≠ "") (hk : kc ≠ "")
    (hkey : getAccessKey db kc = some key)
    (hnd : (db.teams.map (fun x => x.id)).Nodup) :
    ((join db remote now email kc).res = JoinResult.keyAlreadyUsed ↔
      (key.isUnlimited = false ∧ key.isTemp = false ∧ 0 < key.usageCount)) ∧
    (key.isUnlimited = false → key.isTemp = false →
      ((∃ n, (join db remote now email kc).res = JoinResult.alreadyMember n) ∨
        (join db remote now email kc).res = JoinResult.inviteSent) →
      ∀ (remote2 : Remote) (now2 : Nat) (email2 : String), email2 ≠ "" →
        (join (join db remote now email kc).db remote2 now2 email2 kc).res =
          JoinResult.keyAlreadyUsed) := by
  constructor
  · constructor
    · intro hres
      by_cases hcond : (!key.isUnlimited && !key.isTemp && decide (key.usageCount > 0)) = true
      · simp only [Bool.and_eq_true, Bool.not_eq_true', decide_eq_true_eq] at hcond
        exact ⟨hcond.1.1, hcond.1.2, hcond.2⟩
      · exact absurd hres (join_res_not_keyused he hk hkey (by simpa using hcond))
    · intro ⟨h1, h2, h3⟩
      exact join_keyused he hk hkey (by simp [h1, h2, h3, h3.ne'])
  · intro hu ht hsucc remote2 now2 email2 he2
    have hbump := join_success_key he hk hkey hnd hsucc
    exact join_keyused he2 hk hbump (by simp [hu, ht])

lemma listTeams_sorted (ts : List Team) :
    List.Sorted (fun a b : Team => b.createdAt ≤ a.createdAt) (listTeams ts) := by
  have h := @List.sorted_mergeSort Team (fun a b => decide (b.createdAt ≤ a.createdAt))
    (by intro a b c h1 h2; simp only [decide_eq_true_eq] at *; omega)
    (by intro a b; simp only [Bool.or_eq_true, decide_eq_true_eq]; omega) ts
  exact h.imp (by intro a b hab; simpa using hab)

lemma find?_first_le {p : Team → Bool} : ∀ {L : List Team} {c : Team},
    List.Sorted (fun a b : Team => b.createdAt ≤ a.createdAt) L →
    L.find? p = some c →
    ∀ u ∈ L, p u = true → u.createdAt ≤ c.createdAt := by
  intro L
  induction L with
  | nil => intro c _ h; simp at h
  | cons x rest ih =>
    intro c hs hf u hu hpu
    simp only [List.find?_cons] at hf
    cases hx : p x with
    | true =>
      rw [hx] at hf
      simp only [Option.some_inj] at hf
      subst hf
      rcases List.mem_cons.mp hu with rfl | hu'
      · exact Nat.le_refl _
      · exact (List.sorted_cons.mp hs).1 u hu'
    | false =>
      rw [hx] at hf
      rcases List.mem_cons.mp hu with rfl | hu'
      · rw [hpu] at hx; cases hx
      · exact ih (List.sorted_cons.mp hs).2 hf u hu' hpu

/-- C10: `DB.listTeams` returns the teams sorted newest-first (a
permutation of the stored teams, sorted by `createdAt` descending), so
when no roster matches the email the scan's candidate is an
under-capacity team no other under-capacity team strictly postdates. -/
theorem C10_newest_first_selection (db : DBState) (remote : Remote) (now : Nat)
    (email kc : String) (key : AccessKey) (c : Team)
    (hnd : (db.teams.map (fun x => x.id)).Nodup)
    (hnomatch : (listTeams db.teams).find? (teamMatches remote (lowerStr email)) = none)
    (hcand : (listTeams db.teams).find? (candTeamOK remote) = some c) :
    (listTeams db.teams).Perm db.teams ∧
    List.Sorted (fun a b : Team => b.createdAt ≤ a.createdAt) (listTeams db.teams) ∧
    (joinScan remote now (lowerStr email) email kc key (listTeams db.teams) db none).res =
      ScanRes.finished (some (refreshedOf remote now c)) ∧
    candTeamOK remote c = true ∧
    ∀ u ∈ db.teams, candTeamOK remote u = true → u.createdAt ≤ c.createdAt := by
  have hnd' := listTeams_nodup_ids hnd
  have hfind' := listTeams_findTeam hnd
  refine ⟨listTeams_perm db.teams, listTeams_sorted db.teams, ?_, ?_, ?_⟩
  · have h := (joinScan_no_match remote now (lowerStr email) email kc key
      (listTeams db.teams) db none hnd' hfind' hnomatch).1
    rw [h, hcand]
    rfl
  · exact List.find?_some hcand
  · intro u hu hcu
    exact find?_first_le (listTeams_sorted db.teams) hcand u
      ((listTeams_perm db.teams).mem_iff.mpr hu) hcu

/-- C8 (amended): a successful `join` with key `key` at time `now` creates
exactly one Invitation; its `tempExpireAt` is
`now + (tempHours or-else 24) * 3600000` when the key is temp — where a
`tempHours` of `0` also falls back to 24 — and absent otherwise. -/
theorem C8_temp_expiry_arithmetic (db : DBState) (remote : Remote) (now : Nat)
    (email kc : String) (key : AccessKey)
    (he : email ≠ "") (hk : kc ≠ "")
    (hkey : getAccessKey db kc = some key)
    (hnd : (db.teams.map (fun x => x.id)).Nodup)
    (hsucc : (∃ n, (join db remote now email kc).res = JoinResult.alreadyMember n) ∨
      (join db remote now email kc).res = JoinResult.inviteSent) :
    ∃ inv : Invitation,
      (join db remote now email kc).db.invitations = db.invitations ++ [inv] ∧
      inv.isTemp = key.isTemp ∧
      inv.status = InvStatus.success ∧
      inv.createdAt = now ∧
      inv.keyCode = some kc ∧
      inv.tempExpireAt =
        (if key.isTemp then some (now + tempHoursOr24 key.tempHours * 3600000) else none) ∧
      (key.isTemp = true → key.tempHours = some 24 →
        inv.tempExpireAt = some (now + 86400000)) := by
  by_cases hcond : (!key.isUnlimited && !key.isTemp && decide (key.usageCount > 0)) = true
  · exfalso
    have h := @join_keyused db remote now email kc key he hk hkey hcond
    rcases hsucc with ⟨n, hn⟩ | hn <;> rw [h] at hn <;> exact JoinResult.noConfusion hn
  · have hcond' : (!key.isUnlimited && !key.isTemp && decide (key.usageCount > 0)) = false := by
      simpa using hcond
    have hnd' := listTeams_nodup_ids hnd
    have hfind' := listTeams_findTeam hnd
    rcases hsc : joinScan remote now (lowerStr email) email kc key (listTeams db.teams) db none
      with ⟨res, dbOut⟩
    cases hm : (listTeams db.teams).find? (teamMatches remote (lowerStr email)) with
    | some t =>
      have hchar := joinScan_match remote now (lowerStr email) email kc key
        (listTeams db.teams) db none t hnd' hfind' hm
      rw [hsc] at hchar
      obtain ⟨h1, -, h3, -⟩ := hchar
      simp only at h1 h3
      subst h1
      rw [join_of_scan_matched he hk hkey hcond' hsc]
      refine ⟨mkJoinInvitation db.nextId t.id email kc key now, h3, rfl, rfl, rfl, rfl, rfl, ?_⟩
      intro hT hH
      show (if key.isTemp then some (now + tempHoursOr24 key.tempHours * 3600000) else none) = _
      rw [hT, hH]
      rfl
    | none =>
      have hchar := joinScan_no_match remote now (lowerStr email) email kc key
        (listTeams db.teams) db none hnd' hfind' hm
      rw [hsc] at hchar
      obtain ⟨h1, -, h3, h4, -⟩ := hchar
      simp only at h1 h3 h4
      subst h1
      cases hcand : ((listTeams db.teams).find? (candTeamOK remote)).map
          (refreshedOf remote now) with
      | none =>
        rw [hcand] at hsc
        rw [join_of_scan_finished_none he hk hkey hcond' (by simpa using hsc)] at hsucc
        rcases hsucc with ⟨n, hn⟩ | hn <;> exact JoinResult.noConfusion hn
      | some st =>
        rw [hcand] at hsc
        have hsc' : joinScan remote now (lowerStr email) email kc key (listTeams db.teams)
            db none = ⟨ScanRes.finished (some st), dbOut⟩ := by simpa using hsc
        cases hinv : remote.invite st.accessToken st.accountId email with
        | none =>
          cases hupd : updateTeamF
              (incrementKeyUsage
                ((createInvitation dbOut
                  ⟨st.id, email, some kc, InvStatus.success, key.isTemp,
                   if key.isTemp then some (now + tempHoursOr24 key.tempHours * 3600000)
                   else none,
                   false⟩ now).2) kc)
              st.id
              (fun x => { x with memberCount := st.memberCount + 1, lastInviteAt := some now })
              now with
          | none =>
            exfalso
            have hthr : (join db remote now email kc).res =
                JoinResult.thrown "Team not found" := by
              unfold join
              rw [join_cond_false he hk]
              simp only [hkey, hcond', hsc', hinv, hupd]
              rfl
            rcases hsucc with ⟨n, hn⟩ | hn <;> rw [hthr] at hn <;>
              exact JoinResult.noConfusion hn
          | some p =>
            obtain ⟨u, db3⟩ := p
            rw [join_of_scan_inviteOk he hk hkey hcond' hsc' hinv hupd]
            refine ⟨(createInvitation dbOut
              ⟨st.id, email, some kc, InvStatus.success, key.isTemp,
               if key.isTemp then some (now + tempHoursOr24 key.tempHours * 3600000)
               else none,
               false⟩ now).1, ?_, rfl, rfl, rfl, rfl, rfl, ?_⟩
            · have hinvs := (updateTeamF_some_fields hupd).2.1
              show db3.invitations = _
              rw [hinvs, (incrementKeyUsage_fields _ kc).2.1]
              show dbOut.invitations ++ _ = _
              rw [h3]
              rfl
            · intro hT hH
              show (if key.isTemp then some (now + tempHoursOr24 key.tempHours * 3600000)
                    else none) = _
              rw [hT, hH]
              rfl
        | some msg =>
          exfalso
          rcases join_of_scan_inviteFail he hk hkey hcond' hsc' hinv with h | h <;>
            rcases hsucc with ⟨n, hn⟩ | hn <;> rw [h] at hn <;> exact JoinResult.noConfusion hn

lemma createInvitation_lower (db : DBState) (tid : String) (email : String)
    (kc0 : Option String) (st : InvStatus) (it : Bool) (tea : Option Nat) (ic : Bool)
    (now : Nat) :
    createInvitation db ⟨tid, lowerStr email, kc0, st, it, tea, ic⟩ now =
      createInvitation db ⟨tid, email, kc0, st, it, tea, ic⟩ now := by
  unfold createInvitation
  simp only [norm_lowerStr]

/-- The team scan — membership short-circuit, candidate selection and
all store writes — behaves identically for a raw email and its
lower-cased form: the scan compares only the normalized email against
rosters, and the ledger normalizes what it stores. -/
lemma joinScan_lowercase (remote : Remote) (now : Nat) (email kc : String)
    (key : AccessKey) :
    ∀ (L : List Team) (db : DBState) (sel : Option Team),
      joinScan remote now (lowerStr email) email kc key L db sel =
        joinScan remote now (lowerStr (lowerStr email)) (lowerStr email) kc key L db sel := by
  intro L
  induction L with
  | nil => intro db sel; rw [lowerStr_idem]; rfl
  | cons t rest ih =>
    intro db sel
    rw [lowerStr_idem]
    have ih' : ∀ db2 sel2, joinScan remote now (lowerStr email) email kc key rest db2 sel2 =
        joinScan remote now (lowerStr email) (lowerStr email) kc key rest db2 sel2 := by
      intro db2 sel2
      have h := ih db2 sel2
      rwa [lowerStr_idem] at h
    rw [joinScan, joinScan]
    split
    · exact ih' db sel
    · split
      · split
        · rfl
        · exact ih' _ sel
      · split
        · rfl
        · split
          · rw [createInvitation_lower]
          · exact ih' _ _

/-- A string lower-cases to the empty string only if it is empty. -/
lemma lowerStr_missing_cond (email kc : String) :
    ((lowerStr email == "") || (kc == "")) = ((email == "") || (kc == "")) := by
  by_cases he : email = ""
  · subst he; rfl
  · have h1 : (email == "") = false := by simp [he]
    have h2 : (lowerStr email == "") = false := by
      simp only [beq_eq_false_iff_ne]
      intro hcon
      apply he
      cases email with
      | mk l =>
        cases l with
        | nil => rfl
        | cons c cs =>
          exfalso
          have hdata := congrArg String.data hcon
          simp [lowerStr] at hdata
    rw [h1, h2]

/-- C4 (amended): the handler lower-cases the supplied email once
(`email.toLowerCase()`, no trim) and every roster comparison uses that
lower-cased form, so `join` called with `email` and with its lower-cased
form returns the same result and leaves the store in the same state
whenever the remote invite endpoint treats the two emails alike; the
recorded invite calls differ only in carrying the raw email string. -/
theorem C4_join_lowercase (db : DBState) (remote : Remote) (now : Nat) (email kc : String)
    (hinv : ∀ tok acct, remote.invite tok acct email = remote.invite tok acct (lowerStr email)) :
    (join db remote now email kc).res = (join db remote now (lowerStr email) kc).res ∧
    (join db remote now email kc).db = (join db remote now (lowerStr email) kc).db ∧
    (join db remote now email kc).invites =
      (join db remote now (lowerStr email) kc).invites.map (fun p => (p.1, email)) := by
  by_cases h1 : (email == "" || kc == "") = true
  · have h1' : ((lowerStr email == "") || (kc == "")) = true := by
      rw [lowerStr_missing_cond]; exact h1
    unfold join
    simp only [h1, h1']
    refine ⟨?_, ?_, ?_⟩ <;> trivial
  · have hcond : (email == "" || kc == "") = false := by simpa using h1
    have hcond' : ((lowerStr email == "") || (kc == "")) = false := by
      rw [lowerStr_missing_cond]; exact hcond
    cases hk2 : getAccessKey db kc with
    | none =>
      unfold join
      simp only [hcond, hcond', hk2]
      refine ⟨?_, ?_, ?_⟩ <;> trivial
    | some key =>
      cases hrc : (!key.isUnlimited && !key.isTemp && decide (key.usageCount > 0)) with
      | true =>
        unfold join
        simp only [hcond, hcond', hk2, hrc]
        refine ⟨?_, ?_, ?_⟩ <;> trivial
      | false =>
        cases hs : joinScan remote now (lowerStr (lowerStr email)) (lowerStr email) kc key
            (listTeams db.teams) db none with
        | mk r dbOut =>
          have hs' : joinScan remote now (lowerStr email) email kc key
              (listTeams db.teams) db none = ⟨r, dbOut⟩ := by
            rw [joinScan_lowercase remote now email kc key (listTeams db.teams) db none]
            exact hs
          cases r with
          | matched name =>
            unfold join
            simp only [hcond, hcond', hk2, hrc, hs, hs']
            refine ⟨?_, ?_, ?_⟩ <;> trivial
          | thrown msg =>
            unfold join
            simp only [hcond, hcond', hk2, hrc, hs, hs']
            refine ⟨?_, ?_, ?_⟩ <;> trivial
          | finished sel =>
            cases sel with
            | none =>
              unfold join
              simp only [hcond, hcond', hk2, hrc, hs, hs']
              refine ⟨?_, ?_, ?_⟩ <;> trivial
            | some st =>
              cases hiv : remote.invite st.accessToken st.accountId (lowerStr email) with
              | none =>
                have hiv' : remote.invite st.accessToken st.accountId email = none := by
                  rw [hinv st.accessToken st.accountId]; exact hiv
                cases hup : updateTeamF
                    (incrementKeyUsage
                      ((createInvitation dbOut
                        ⟨st.id, email, some kc, InvStatus.success, key.isTemp,
                         if key.isTemp then
                           some (now + tempHoursOr24 key.tempHours * 3600000)
                         else none,
                         false⟩ now).2) kc)
                    st.id
                    (fun u => { u with
                      memberCount := st.memberCount + 1, lastInviteAt := some now })
                    now with
                | none =>
                  have hup' : updateTeamF
                      (incrementKeyUsage
                        ((createInvitation dbOut
                          ⟨st.id, lowerStr email, some kc, InvStatus.success, key.isTemp,
                           if key.isTemp then
                             some (now + tempHoursOr24 key.tempHours * 3600000)
                           else none,
                           false⟩ now).2) kc)
                      st.id
                      (fun u => { u with
                        memberCount := st.memberCount + 1, lastInviteAt := some now })
                      now = none := by
                    rw [createInvitation_lower]; exact hup
                  unfold join
                  simp only [hcond, hcond', hk2, hrc, hs, hs', hiv, hiv', hup, hup',
                    createInvitation_lower]
                  refine ⟨?_, ?_, ?_⟩ <;> trivial
                | some p =>
                  obtain ⟨u, db3⟩ := p
                  have hup' : updateTeamF
                      (incrementKeyUsage
                        ((createInvitation dbOut
                          ⟨st.id, lowerStr email, some kc, InvStatus.success, key.isTemp,
                           if key.isTemp then
                             some (now + tempHoursOr24 key.tempHours * 3600000)
                           else none,
                           false⟩ now).2) kc)
                      st.id
                      (fun u => { u with
                        memberCount := st.memberCount + 1, lastInviteAt := some now })
                      now = some (u, db3) := by
                    rw [createInvitation_lower]; exact hup
                  unfold join
                  simp only [hcond, hcond', hk2, hrc, hs, hs', hiv, hiv', hup, hup']
                  refine ⟨?_, ?_, ?_⟩ <;> trivial
              | some msg =>
                have hiv' : remote.invite st.accessToken st.accountId email = some msg := by
                  rw [hinv st.accessToken st.accountId]; exact hiv
                cases hcs : (containsSub msg "401" || containsSub msg "expired") with
                | false =>
                  unfold join
                  simp only [hcond, hcond', hk2, hrc, hs, hs', hiv, hiv', hcs]
                  refine ⟨?_, ?_, ?_⟩ <;> trivial
                | true =>
                  cases hup : updateTeamF dbOut st.id
                      (fun u => { u with tokenStatus := TokenStatus.expired }) now with
                  | none =>
                    unfold join
                    simp only [hcond, hcond', hk2, hrc, hs, hs', hiv, hiv', hcs, hup]
                    refine ⟨?_, ?_, ?_⟩ <;> trivial
                  | some p =>
                    obtain ⟨u, db1⟩ := p
                    unfold join
                    simp only [hcond, hcond', hk2, hrc, hs, hs', hiv, hiv', hcs, hup]
                    refine ⟨?_, ?_, ?_⟩ <;> trivial

/-! ## Claim theorem: ledger invariant -/


lemma find?_map_overwrite {k : String × String} {v : String} :
    ∀ (idx : List ((String × String) × String)), idx.any (fun e => e.1 == k) = true →
    (idx.map (fun e => if e.1 == k then (k, v) else e)).find? (fun e => e.1 == k) =
      some (k, v) := by
  intro idx
  induction idx with
  | nil => intro h; simp at h
  | cons e rest ih =>
    intro h
    simp only [List.map_cons]
    by_cases he : (e.1 == k) = true
    · rw [if_pos he]
      simp only [List.find?_cons, show ((k, v).1 == k) = true by simp]
    · rw [if_neg he]
      have he' : (e.1 == k) = false := by simpa using he
      simp only [List.find?_cons, he']
      apply ih
      simp only [List.any_cons, he', Bool.false_or] at h
      exact h

lemma find?_indexSet_self (idx : List ((String × String) × String)) (k : String × String)
    (v : String) :
    (indexSet idx k v).find? (fun e => e.1 == k) = some (k, v) := by
  unfold indexSet
  by_cases ha : idx.any (fun e => e.1 == k) = true
  · rw [if_pos ha]
    exact find?_map_overwrite idx ha
  · rw [if_neg ha]
    have hnone : idx.find? (fun e => e.1 == k) = none := by
      rw [List.find?_eq_none]
      intro x hx hpx
      exact ha (List.any_eq_true.mpr ⟨x, hx, hpx⟩)
    rw [List.find?_append, hnone]
    simp only [Option.none_or]
    simp only [List.find?_cons, show ((k, v).1 == k) = true by simp]

lemma find?_indexSet_other {k k2 : String × String} (v : String) (hne : k2 ≠ k) :
    ∀ (idx : List ((String × String) × String)),
    (indexSet idx k v).find? (fun e => e.1 == k2) = idx.find? (fun e => e.1 == k2) := by
  have hkv : ((k, v).1 == k2) = false := by
    simp only [beq_eq_false_iff_ne]
    exact fun h => hne h.symm
  intro idx
  unfold indexSet
  by_cases ha : idx.any (fun e => e.1 == k) = true
  · rw [if_pos ha]
    clear ha
    induction idx with
    | nil => rfl
    | cons e rest ih =>
      simp only [List.map_cons]
      by_cases he : (e.1 == k) = true
      · rw [if_pos he]
        have hek : e.1 = k := by simpa using he
        have he2 : (e.1 == k2) = false := by
          simp only [beq_eq_false_iff_ne, hek]
          exact fun h => hne h.symm
        simp only [List.find?_cons, hkv, he2]
        exact ih
      · rw [if_neg he]
        by_cases he2 : (e.1 == k2) = true
        · simp only [List.find?_cons, he2]
        · have he2' : (e.1 == k2) = false := by simpa using he2
          simp only [List.find?_cons, he2']
          exact ih
  · rw [if_neg ha]
    rw [List.find?_append]
    simp only [List.find?_cons, hkv, List.find?_nil]
    cases hf : idx.find? (fun e => e.1 == k2) <;> rfl

/-- C9: `DB.createInvitation` always stores the trimmed, lower-cased form
of the supplied email and writes, in the same operation, the secondary
index entry `(normalized email, teamId) -> new id`; consequently the
ledger invariant — every stored record has a normalized email and a
populated index entry for its `(email, teamId)` pair — is preserved. -/
theorem C9_ledger_normalization (db : DBState) (inv : NewInvitation) (now : Nat)
    (hinv : ∀ i ∈ db.invitations, i.email = lowerStr (trimStr i.email) ∧
      ∃ v, lookupIndex db (i.email, i.teamId) = some v) :
    (createInvitation db inv now).1.email = lowerStr (trimStr inv.email) ∧
    (createInvitation db inv now).1 ∈ (createInvitation db inv now).2.invitations ∧
    lookupIndex (createInvitation db inv now).2 (lowerStr (trimStr inv.email), inv.teamId) =
      some (createInvitation db inv now).1.id ∧
    (∀ i ∈ (createInvitation db inv now).2.invitations,
      i.email = lowerStr (trimStr i.email) ∧
      ∃ v, lookupIndex (createInvitation db inv now).2 (i.email, i.teamId) = some v) := by
  refine ⟨rfl, ?_, ?_, ?_⟩
  · show (createInvitation db inv now).1 ∈ db.invitations ++ [(createInvitation db inv now).1]
    exact List.mem_append_right _ (List.mem_singleton.mpr rfl)
  · unfold lookupIndex
    have hidx : (createInvitation db inv now).2.emailIndex =
        indexSet db.emailIndex (lowerStr (trimStr inv.email), inv.teamId) (genId db.nextId) :=
      rfl
    rw [hidx, find?_indexSet_self]
    rfl
  · intro i hi
    have hi' : i ∈ db.invitations ++ [(createInvitation db inv now).1] := hi
    rcases List.mem_append.mp hi' with hold | hnew
    · obtain ⟨hn, v0, hv⟩ := hinv i hold
      refine ⟨hn, ?_⟩
      by_cases hkeq : ((i.email : String), i.teamId) =
          (lowerStr (trimStr inv.email), inv.teamId)
      · refine ⟨genId db.nextId, ?_⟩
        unfold lookupIndex
        have hidx : (createInvitation db inv now).2.emailIndex =
            indexSet db.emailIndex (lowerStr (trimStr inv.email), inv.teamId)
              (genId db.nextId) := rfl
        rw [hidx, hkeq, find?_indexSet_self]
        rfl
      · refine ⟨v0, ?_⟩
        unfold lookupIndex
        have hidx : (createInvitation db inv now).2.emailIndex =
            indexSet db.emailIndex (lowerStr (trimStr inv.email), inv.teamId)
              (genId db.nextId) := rfl
        rw [hidx, find?_indexSet_other _ hkeq]
        unfold lookupIndex at hv
        exact hv
    · have hieq : i = (createInvitation db inv now).1 := by simpa using hnew
      subst hieq
      constructor
      · show lowerStr (trimStr inv.email) = lowerStr (trimStr (lowerStr (trimStr inv.email)))
        exact (norm_idem inv.email).symm
      · refine ⟨genId db.nextId, ?_⟩
        unfold lookupIndex
        have hidx : (createInvitation db inv now).2.emailIndex =
            indexSet db.emailIndex (lowerStr (trimStr inv.email), inv.teamId)
              (genId db.nextId) := rfl
        rw [hidx]
        have hkey2 : (((createInvitation db inv now).1.email : String),
            (createInvitation db inv now).1.teamId) =
            (lowerStr (trimStr inv.email), inv.teamId) := rfl
        rw [hkey2, find?_indexSet_self]
        rfl

/-! ## Reconciliation lemmas and claim theorems -/


lemma foldl_tick_mono {α : Type} {f : TickOut → α → TickOut} (hf : TickStepMono f) :
    ∀ (l : List α) (acc : TickOut), ∃ k2 l2,
      (l.foldl f acc).kicks = acc.kicks ++ k2 ∧
      (l.foldl f acc).db.kickLogs = acc.db.kickLogs ++ l2 ∧
      (l.foldl f acc).db.teams = acc.db.teams ∧
      (l.foldl f acc).db.invitations = acc.db.invitations := by
  intro l
  induction l with
  | nil =>
    intro acc
    refine ⟨[], [], ?_, ?_, ?_, ?_⟩ <;> simp
  | cons x rest ih =>
    intro acc
    obtain ⟨k1, l1, ha1, hb1, hc1, hd1⟩ := hf acc x
    obtain ⟨k2, l2, ha2, hb2, hc2, hd2⟩ := ih (f acc x)
    refine ⟨k1 ++ k2, l1 ++ l2, ?_, ?_, ?_, ?_⟩
    · show (rest.foldl f (f acc x)).kicks = _
      rw [ha2, ha1, List.append_assoc]
    · show (rest.foldl f (f acc x)).db.kickLogs = _
      rw [hb2, hb1, List.append_assoc]
    · show (rest.foldl f (f acc x)).db.teams = _
      rw [hc2, hc1]
    · show (rest.foldl f (f acc x)).db.invitations = _
      rw [hd2, hd1]

lemma expiryStep_mono (remote : Remote) (now : Nat) :
    TickStepMono (expiryStep remote now) := by
  intro acc inv
  unfold expiryStep
  by_cases hc : expiryCond now inv = true
  · rw [if_pos hc]
    cases hft : findTeam acc.db inv.teamId with
    | none =>
      simp only [hft]
      refine ⟨[], [], ?_, ?_, ?_, ?_⟩ <;> simp
    | some team =>
      simp only [hft]
      cases hfm : remote.fetchMembers team.accessToken team.accountId with
      | none =>
        simp only [hfm]
        refine ⟨[], [], ?_, ?_, ?_, ?_⟩ <;> simp
      | some ms =>
        simp only [hfm]
        cases hmem : ms.find? (fun m => m.email == inv.email) with
        | none =>
          simp only [hmem]
          refine ⟨[], [], ?_, ?_, ?_, ?_⟩ <;> simp
        | some member =>
          simp only [hmem]
          exact ⟨_, _, rfl, rfl, rfl, rfl⟩
  · rw [if_neg hc]
    refine ⟨[], [], ?_, ?_, ?_, ?_⟩ <;> simp

lemma authorizedEmail_congr {db db' : DBState} (h : db.invitations = db'.invitations)
    (tid e : String) : authorizedEmail db tid e = authorizedEmail db' tid e := by
  unfold authorizedEmail
  rw [h]

lemma unauthorizedPass_eq (remote : Remote) (now : Nat) (t0 : TickOut) :
    unauthorizedPass remote now t0 = t0.db.teams.foldl (unauthTeamStep remote now) t0 := rfl

lemma unauthStep_mono (remote : Remote) (now : Nat) (team : Team) :
    TickStepMono (unauthStep remote now team) := by
  intro acc m
  unfold unauthStep
  by_cases ha : authorizedEmail acc.db team.id (lowerStr m.email) = true
  · rw [if_pos ha]
    refine ⟨[], [], ?_, ?_, ?_, ?_⟩ <;> simp
  · rw [if_neg ha]
    exact ⟨_, _, rfl, rfl, rfl, rfl⟩

lemma unauthTeamStep_mono (remote : Remote) (now : Nat) :
    TickStepMono (unauthTeamStep remote now) := by
  intro acc team
  unfold unauthTeamStep
  cases hfm : remote.fetchMembers team.accessToken team.accountId with
  | none =>
    simp only [hfm]
    refine ⟨[], [], ?_, ?_, ?_, ?_⟩ <;> simp
  | some members =>
    simp only [hfm]
    exact foldl_tick_mono (unauthStep_mono remote now team) _ acc

lemma expiryStep_hit {remote : Remote} {now : Nat} {acc : TickOut} {inv : Invitation}
    {team : Team} {ms : List Member} {member : Member}
    (hc : expiryCond now inv = true)
    (hteam : findTeam acc.db inv.teamId = some team)
    (hfm : remote.fetchMembers team.accessToken team.accountId = some ms)
    (hmem : ms.find? (fun m => m.email == inv.email) = some member) :
    (team.accountId, member.id) ∈ (expiryStep remote now acc inv).kicks ∧
    ∃ log ∈ (expiryStep remote now acc inv).db.kickLogs,
      log.teamId = inv.teamId ∧ log.email = inv.email ∧ log.reason = "expired" ∧
      log.success = remote.kickOk team.accountId member.id := by
  unfold expiryStep
  rw [if_pos hc]
  simp only [hteam, hfm, hmem]
  constructor
  · exact List.mem_append_right _ (List.mem_singleton.mpr rfl)
  · refine ⟨(addKickLog acc.db
      ⟨inv.teamId, inv.email, "expired", remote.kickOk team.accountId member.id,
       if remote.kickOk team.accountId member.id then none else some "Kick failed"⟩
      now).1, ?_, rfl, rfl, rfl, rfl⟩
    exact List.mem_append_right _ (List.mem_singleton.mpr rfl)

lemma foldl_expiry_hit (remote : Remote) (now : Nat) (ts0 : List Team)
    {inv : Invitation} {team : Team} {ms : List Member} {member : Member}
    (hc : expiryCond now inv = true)
    (hteam : ts0.find? (fun t => t.id == inv.teamId) = some team)
    (hfm : remote.fetchMembers team.accessToken team.accountId = some ms)
    (hmem : ms.find? (fun m => m.email == inv.email) = some member) :
    ∀ (l : List Invitation) (acc : TickOut), inv ∈ l → acc.db.teams = ts0 →
      (team.accountId, member.id) ∈ (l.foldl (expiryStep remote now) acc).kicks ∧
      ∃ log ∈ (l.foldl (expiryStep remote now) acc).db.kickLogs,
        log.teamId = inv.teamId ∧ log.email = inv.email ∧ log.reason = "expired" ∧
        log.success = remote.kickOk team.accountId member.id := by
  intro l
  induction l with
  | nil => intro acc h; cases h
  | cons x rest ih =>
    intro acc hmm hts
    by_cases hx : inv = x
    · subst hx
      have hteam' : findTeam acc.db inv.teamId = some team := by
        unfold findTeam
        rw [hts]
        exact hteam
      have hh := expiryStep_hit hc hteam' hfm hmem
      obtain ⟨k2, l2, ha, hb, -, -⟩ := foldl_tick_mono (expiryStep_mono remote now) rest
        (expiryStep remote now acc inv)
      constructor
      · show _ ∈ (rest.foldl _ (expiryStep remote now acc inv)).kicks
        rw [ha]
        exact List.mem_append_left _ hh.1
      · obtain ⟨log, hlmem, h1, h2, h3, h4⟩ := hh.2
        refine ⟨log, ?_, h1, h2, h3, h4⟩
        show _ ∈ (rest.foldl _ (expiryStep remote now acc inv)).db.kickLogs
        rw [hb]
        exact List.mem_append_left _ hlmem
    · have hmem' : inv ∈ rest := by
        rcases List.mem_cons.mp hmm with h | h
        · exact absurd h hx
        · exact h
      obtain ⟨k1, l1, -, -, hct, -⟩ := expiryStep_mono remote now acc x
      exact ih (expiryStep remote now acc x) hmem' (by rw [hct, hts])

lemma expiryPass_fields (db : DBState) (remote : Remote) (now : Nat) :
    (expiryPass db remote now).db.teams = db.teams ∧
    (expiryPass db remote now).db.invitations = db.invitations := by
  obtain ⟨k2, l2, ha, hb, hcx, hd⟩ := foldl_tick_mono (expiryStep_mono remote now)
    (listInvitations db.invitations) ⟨db, []⟩
  exact ⟨hcx, hd⟩

lemma expiryPass_hit (db : DBState) (remote : Remote) (now : Nat)
    {inv : Invitation} {team : Team} {ms : List Member} {member : Member}
    (hi : inv ∈ db.invitations)
    (hc : expiryCond now inv = true)
    (hteam : findTeam db inv.teamId = some team)
    (hfm : remote.fetchMembers team.accessToken team.accountId = some ms)
    (hmem : ms.find? (fun m => m.email == inv.email) = some member) :
    (team.accountId, member.id) ∈ (expiryPass db remote now).kicks ∧
    ∃ log ∈ (expiryPass db remote now).db.kickLogs,
      log.teamId = inv.teamId ∧ log.email = inv.email ∧ log.reason = "expired" ∧
      log.success = remote.kickOk team.accountId member.id := by
  exact foldl_expiry_hit remote now db.teams hc hteam hfm hmem
    (listInvitations db.invitations) ⟨db, []⟩
    (((List.mergeSort_perm _ _).mem_iff).mpr hi) rfl

lemma expiryPass_noop (db : DBState) (remote : Remote) (now : Nat)
    (h : ∀ inv ∈ db.invitations, expiryCond now inv = false) :
    expiryPass db remote now = ⟨db, []⟩ := by
  unfold expiryPass
  have hgen : ∀ (l : List Invitation) (acc : TickOut),
      (∀ inv ∈ l, expiryCond now inv = false) →
      l.foldl (expiryStep remote now) acc = acc := by
    intro l
    induction l with
    | nil => intro acc _; rfl
    | cons x rest ih =>
      intro acc hall
      show rest.foldl _ (expiryStep remote now acc x) = acc
      have hx : expiryStep remote now acc x = acc := by
        unfold expiryStep
        rw [if_neg (by simp [hall x (List.mem_cons_self x rest)])]
      rw [hx]
      exact ih acc (fun i hi2 => hall i (List.mem_cons_of_mem x hi2))
  apply hgen
  intro i hi2
  exact h i (((List.mergeSort_perm _ _).mem_iff).mp hi2)

lemma foldl_unauth_inner_hit (remote : Remote) (now : Nat) (team : Team) (db0 : DBState)
    {m : Member}
    (hun : authorizedEmail db0 team.id (lowerStr m.email) = false) :
    ∀ (l : List Member) (acc : TickOut), m ∈ l → acc.db.invitations = db0.invitations →
      (team.accountId, m.id) ∈ (l.foldl (unauthStep remote now team) acc).kicks ∧
      ∃ log ∈ (l.foldl (unauthStep remote now team) acc).db.kickLogs,
        log.teamId = team.id ∧ log.email = lowerStr m.email ∧
        log.reason = "unauthorized" ∧ log.success = remote.kickOk team.accountId m.id := by
  intro l
  induction l with
  | nil => intro acc h; cases h
  | cons x rest ih =>
    intro acc hm hinvs
    by_cases hx : m = x
    · subst hx
      have hun' : authorizedEmail acc.db team.id (lowerStr m.email) = false := by
        rw [authorizedEmail_congr hinvs]
        exact hun
      have hstep : unauthStep remote now team acc m =
          ⟨(addKickLog acc.db
              ⟨team.id, lowerStr m.email, "unauthorized", remote.kickOk team.accountId m.id,
               if remote.kickOk team.accountId m.id then none else some "Kick failed"⟩
              now).2,
           acc.kicks ++ [(team.accountId, m.id)]⟩ := by
        unfold unauthStep
        rw [if_neg (by simp [hun'])]
      obtain ⟨k2, l2, ha, hb, -, -⟩ := foldl_tick_mono (unauthStep_mono remote now team) rest
        (unauthStep remote now team acc m)
      constructor
      · show _ ∈ (rest.foldl _ (unauthStep remote now team acc m)).kicks
        rw [ha, hstep]
        exact List.mem_append_left _ (List.mem_append_right _ (List.mem_singleton.mpr rfl))
      · refine ⟨(addKickLog acc.db
            ⟨team.id, lowerStr m.email, "unauthorized", remote.kickOk team.accountId m.id,
             if remote.kickOk team.accountId m.id then none else some "Kick failed"⟩
            now).1, ?_, rfl, rfl, rfl, rfl⟩
        show _ ∈ (rest.foldl _ (unauthStep remote now team acc m)).db.kickLogs
        rw [hb, hstep]
        exact List.mem_append_left _ (List.mem_append_right _ (List.mem_singleton.mpr rfl))
    · have hm' : m ∈ rest := by
        rcases List.mem_cons.mp hm with h | h
        · exact absurd h hx
        · exact h
      obtain ⟨k1, l1, -, -, -, hinv1⟩ := unauthStep_mono remote now team acc x
      exact ih (unauthStep remote now team acc x) hm' (by rw [hinv1, hinvs])

lemma foldl_unauth_outer_hit (remote : Remote) (now : Nat) (db0 : DBState)
    {team : Team} {ms : List Member} {m : Member}
    (hfm : remote.fetchMembers team.accessToken team.accountId = some ms)
    (hmf : m ∈ ms.filter (fun x => x.role != "account-owner"))
    (hun : authorizedEmail db0 team.id (lowerStr m.email) = false) :
    ∀ (l : List Team) (acc : TickOut), team ∈ l → acc.db.invitations = db0.invitations →
      (team.accountId, m.id) ∈ (l.foldl (unauthTeamStep remote now) acc).kicks ∧
      ∃ log ∈ (l.foldl (unauthTeamStep remote now) acc).db.kickLogs,
        log.teamId = team.id ∧ log.email = lowerStr m.email ∧
        log.reason = "unauthorized" ∧ log.success = remote.kickOk team.accountId m.id := by
  intro l
  induction l with
  | nil => intro acc h; cases h
  | cons x rest ih =>
    intro acc hm hinvs
    by_cases hx : team = x
    · subst hx
      have hstep : unauthTeamStep remote now acc team =
          (ms.filter (fun y => y.role != "account-owner")).foldl
            (unauthStep remote now team) acc := by
        unfold unauthTeamStep
        rw [hfm]
      have hinner := foldl_unauth_inner_hit remote now team db0 hun
        (ms.filter (fun y => y.role != "account-owner")) acc hmf hinvs
      obtain ⟨k2, l2, ha, hb, -, -⟩ := foldl_tick_mono (unauthTeamStep_mono remote now) rest
        (unauthTeamStep remote now acc team)
      constructor
      · show _ ∈ (rest.foldl _ (unauthTeamStep remote now acc team)).kicks
        rw [ha, hstep]
        exact List.mem_append_left _ hinner.1
      · obtain ⟨log, hlmem, h1, h2, h3, h4⟩ := hinner.2
        refine ⟨log, ?_, h1, h2, h3, h4⟩
        show _ ∈ (rest.foldl _ (unauthTeamStep remote now acc team)).db.kickLogs
        rw [hb, hstep]
        exact List.mem_append_left _ hlmem
    · have hm' : team ∈ rest := by
        rcases List.mem_cons.mp hm with h | h
        · exact absurd h hx
        · exact h
      obtain ⟨k1, l1, -, -, -, hinv1⟩ := unauthTeamStep_mono remote now acc x
      exact ih (unauthTeamStep remote now acc x) hm' (by rw [hinv1, hinvs])

lemma tick_run (db : DBState) (remote : Remote) (now : Nat) (h : Nat)
    (hen : (getAutoKickCfg db).enabled = true)
    (hlo : (getAutoKickCfg db).startHour ≤ h)
    (hhi : h ≤ (getAutoKickCfg db).endHour) :
    tick db remote now h = unauthorizedPass remote now (expiryPass db remote now) := by
  unfold tick
  have h1 : (!(getAutoKickCfg db).enabled) = false := by rw [hen]; rfl
  have h2 : (decide (h < (getAutoKickCfg db).startHour)
      || decide (h > (getAutoKickCfg db).endHour)) = false := by
    simp only [Bool.or_eq_false_iff, decide_eq_false_iff_not]
    omega
  simp only [h1, h2, Bool.false_eq_true, if_false]

/-- C2: on a tick that passes the enabled/hour gates, every live non-owner
member of any team whose (lower-cased) email holds no `success`-status
invitation for that team is removed via the remote client, with a KickLog
entry of reason "unauthorized" recorded for the removal. -/
theorem C2_unauthorized_members_removed (db : DBState) (remote : Remote) (now h : Nat)
    (team : Team) (ms : List Member) (m : Member)
    (hen : (getAutoKickCfg db).enabled = true)
    (hlo : (getAutoKickCfg db).startHour ≤ h)
    (hhi : h ≤ (getAutoKickCfg db).endHour)
    (hteam : team ∈ db.teams)
    (hfm : remote.fetchMembers team.accessToken team.accountId = some ms)
    (hmf : m ∈ ms.filter (fun x => x.role != "account-owner"))
    (hun : authorizedEmail db team.id (lowerStr m.email) = false) :
    (team.accountId, m.id) ∈ (tick db remote now h).kicks ∧
    ∃ log ∈ (tick db remote now h).db.kickLogs,
      log.teamId = team.id ∧ log.email = lowerStr m.email ∧
      log.reason = "unauthorized" ∧ log.success = remote.kickOk team.accountId m.id := by
  rw [tick_run db remote now h hen hlo hhi]
  rw [unauthorizedPass_eq]
  obtain ⟨hteams, hinvs⟩ := expiryPass_fields db remote now
  apply foldl_unauth_outer_hit remote now db hfm hmf hun
    (expiryPass db remote now).db.teams (expiryPass db remote now)
  · rw [hteams]
    exact hteam
  · exact hinvs

/-- C1 (amended): on a gate-passing tick, every temp, unconfirmed,
`success`-status invitation whose nonzero `tempExpireAt` lies strictly
before `now` has its member looked up in the owning team's live roster
and removed, with a KickLog entry of reason "expired" recorded; and when
no invitation's expiry lies strictly before `now`, the expiry pass
removes nobody and records nothing. -/
theorem C1_expiry_pass (db : DBState) (remote : Remote) (now h : Nat)
    (hen : (getAutoKickCfg db).enabled = true)
    (hlo : (getAutoKickCfg db).startHour ≤ h)
    (hhi : h ≤ (getAutoKickCfg db).endHour) :
    (∀ (inv : Invitation) (e : Nat) (team : Team) (ms : List Member) (member : Member),
      inv ∈ db.invitations → inv.isTemp = true → inv.isConfirmed = false →
      inv.status = InvStatus.success → inv.tempExpireAt = some e → 0 < e → e < now →
      findTeam db inv.teamId = some team →
      remote.fetchMembers team.accessToken team.accountId = some ms →
      ms.find? (fun m => m.email == inv.email) = some member →
      (team.accountId, member.id) ∈ (tick db remote now h).kicks ∧
      ∃ log ∈ (tick db remote now h).db.kickLogs,
        log.teamId = inv.teamId ∧ log.email = inv.email ∧ log.reason = "expired") ∧
    ((∀ inv ∈ db.invitations, ∀ e, inv.tempExpireAt = some e → now ≤ e) →
      expiryPass db remote now = ⟨db, []⟩) := by
  constructor
  · intro inv e team ms member hi hT hC hS hE he0 hlt hteam hfm hmem
    rw [tick_run db remote now h hen hlo hhi]
    have hc : expiryCond now inv = true := by
      unfold expiryCond
      rw [hT, hC, hS, hE]
      simp [hlt, Nat.pos_iff_ne_zero.mp he0]
    have hp := expiryPass_hit db remote now hi hc hteam hfm hmem
    rw [unauthorizedPass_eq]
    obtain ⟨k2, l2, ha, hb, -, -⟩ := foldl_tick_mono (unauthTeamStep_mono remote now)
      (expiryPass db remote now).db.teams (expiryPass db remote now)
    constructor
    · rw [ha]
      exact List.mem_append_left _ hp.1
    · obtain ⟨log, hlmem, h1, h2, h3, -⟩ := hp.2
      refine ⟨log, ?_, h1, h2, h3⟩
      rw [hb]
      exact List.mem_append_left _ hlmem
  · intro hall
    apply expiryPass_noop
    intro inv hi
    unfold expiryCond
    cases hte : inv.tempExpireAt with
    | none => simp
    | some e2 =>
      have hle := hall inv hi e2 hte
      have h2 : ¬(e2 < now) := by omega
      simp [h2]

/-! ## Concrete evaluations: witnesses and counterexamples -/

unseal List.merge List.mergeSort

theorem C5_witness :
    (join wDb wRemote 1000 "user@x.com" "key1").res = JoinResult.alreadyMember wTeam1.name ∧
    (join wDb wRemote 1000 "user@x.com" "key1").invites = [] ∧
    (join wDb wRemote 1000 "user@x.com" "key1").db.invitations =
      wDb.invitations ++ [mkJoinInvitation wDb.nextId wTeam1.id "user@x.com" "key1" wKey 1000] ∧
    getAccessKey (join wDb wRemote 1000 "user@x.com" "key1").db "key1" =
      some { wKey with usageCount := wKey.usageCount + 1 } :=
  C5_already_member_short_circuit wDb wRemote 1000 "user@x.com" "key1" wKey wTeam1
    (by decide) (by decide) rfl (Or.inr (Or.inr rfl)) (by decide) (by decide)

theorem C6_witness :
    (joinScan wRemote 1000 (lowerStr "user@x.com") "user@x.com" "key1" wKey
        (listTeams wDb.teams) wDb none).res =
      match (listTeams wDb.teams).find? (teamMatches wRemote (lowerStr "user@x.com")) with
      | some t => ScanRes.matched t.name
      | none => ScanRes.finished
          (((listTeams wDb.teams).find? (candTeamOK wRemote)).map (refreshedOf wRemote 1000)) :=
  C6_candidate_selection wDb wRemote 1000 "user@x.com" "key1" wKey (by decide)

theorem C7_witness :
    (join wDb wRemoteFull 1000 "zz@x.com" "key1").res = JoinResult.noAvailableTeams ∧
    (join wDb wRemoteFull 1000 "zz@x.com" "key1").invites = [] ∧
    (join wDb wRemoteFull 1000 "zz@x.com" "key1").db.invitations = wDb.invitations ∧
    (join wDb wRemoteFull 1000 "zz@x.com" "key1").db.keys = wDb.keys ∧
    getAccessKey (join wDb wRemoteFull 1000 "zz@x.com" "key1").db "key1" = some wKey :=
  C7_no_available_teams wDb wRemoteFull 1000 "zz@x.com" "key1" wKey
    (by decide) (by decide) rfl (Or.inr (Or.inr rfl)) (by decide) (by decide) (by decide)

theorem C3_witness :
    ((join wDb wRemote 1000 "user@x.com" "key1").res = JoinResult.keyAlreadyUsed ↔
      (wKey.isUnlimited = false ∧ wKey.isTemp = false ∧ 0 < wKey.usageCount)) ∧
    (join (join wDb wRemote 1000 "user@x.com" "key1").db wRemote 2000 "b@x.com" "key1").res =
      JoinResult.keyAlreadyUsed :=
  ⟨(C3_single_use_enforcement wDb wRemote 1000 "user@x.com" "key1" wKey
      (by decide) (by decide) rfl (by decide)).1,
   (C3_single_use_enforcement wDb wRemote 1000 "user@x.com" "key1" wKey
      (by decide) (by decide) rfl (by decide)).2 rfl rfl
      (Or.inl ⟨"Team One", by decide⟩) wRemote 2000 "b@x.com" (by decide)⟩

theorem C8_witness :
    ∃ inv : Invitation,
      (join wDb wRemote 1000 "user@x.com" "keyt").db.invitations =
        wDb.invitations ++ [inv] ∧
      inv.isTemp = wKeyTemp.isTemp ∧
      inv.status = InvStatus.success ∧
      inv.createdAt = 1000 ∧
      inv.keyCode = some "keyt" ∧
      inv.tempExpireAt =
        (if wKeyTemp.isTemp then some (1000 + tempHoursOr24 wKeyTemp.tempHours * 3600000)
         else none) ∧
      (wKeyTemp.isTemp = true → wKeyTemp.tempHours = some 24 →
        inv.tempExpireAt = some (1000 + 86400000)) :=
  C8_temp_expiry_arithmetic wDb wRemote 1000 "user@x.com" "keyt" wKeyTemp
    (by decide) (by decide) rfl (by decide) (Or.inl ⟨"Team One", by decide⟩)

/-- The handler's key filter is `key.tempHours || 24`: a stored `tempHours`
of `0` is treated as absent, so the invitation created with a temp key
carrying `tempHours = 0` at time 1000 expires at `1000 + 24h`, not at
`1000 + 0 * 3600000` as the claim's formula demands. -/
theorem C8_counterexample :
    wKeyTemp0.isTemp = true ∧ wKeyTemp0.tempHours = some 0 ∧
    (join wDb wRemote 1000 "user@x.com" "key0").res = JoinResult.alreadyMember "Team One" ∧
    (join wDb wRemote 1000 "user@x.com" "key0").db.invitations =
      [{ id := "0", teamId := "t1", email := "user@x.com", keyCode := some "key0"
         status := InvStatus.success, isTemp := true, tempExpireAt := some 86401000
         isConfirmed := false, createdAt := 1000 }] ∧
    (86401000 : Nat) ≠ 1000 + 0 * 3600000 := by decide

/-- The join handler only lower-cases the email (`email.toLowerCase()`,
no trim), so an email with a leading space misses the roster match that
its trimmed, lower-cased form hits: the two calls behave differently. -/
theorem C4_counterexample :
    lowerStr (trimStr " user@x.com") = "user@x.com" ∧
    (join wDbOne wRemoteFull 1000 " user@x.com" "key1").res =
      JoinResult.noAvailableTeams ∧
    (join wDbOne wRemoteFull 1000 "user@x.com" "key1").res =
      JoinResult.alreadyMember "Team One" := by decide

/-- The cron filter is `Date.now() > inv.tempExpireAt` (strict): at a tick
where `now` equals `tempExpireAt` exactly, the claim's `tempExpireAt <=
now` condition holds, the member is live in the roster, the gates pass —
yet nobody is removed and no KickLog entry is written. -/
theorem C1_counterexample :
    (getAutoKickCfg wDbC1e).enabled = true ∧
    (getAutoKickCfg wDbC1e).startHour ≤ 12 ∧ 12 ≤ (getAutoKickCfg wDbC1e).endHour ∧
    wInv1e ∈ wDbC1e.invitations ∧ wInv1e.isTemp = true ∧ wInv1e.isConfirmed = false ∧
    wInv1e.status = InvStatus.success ∧ wInv1e.tempExpireAt = some 1000 ∧
    (1000 : Nat) ≤ 1000 ∧
    findTeam wDbC1e wInv1e.teamId = some wTeam1 ∧
    wRemote.fetchMembers wTeam1.accessToken wTeam1.accountId = some [wOwner, wMember] ∧
    [wOwner, wMember].find? (fun m => m.email == wInv1e.email) = some wMember ∧
    (tick wDbC1e wRemote 1000 12).kicks = [] ∧
    (tick wDbC1e wRemote 1000 12).db.kickLogs = [] := by decide

theorem C1_witness :
    ("acct1", "u1") ∈ (tick wDbC1 wRemote 1000 12).kicks ∧
    (∃ log ∈ (tick wDbC1 wRemote 1000 12).db.kickLogs,
      log.teamId = wInv1.teamId ∧ log.email = wInv1.email ∧ log.reason = "expired") ∧
    expiryPass wDbC1 wRemote 300 = ⟨wDbC1, []⟩ :=
  ⟨((C1_expiry_pass wDbC1 wRemote 1000 12 (by decide) (by decide) (by decide)).1
      wInv1 500 wTeam1 [wOwner, wMember] wMember
      (by decide) rfl rfl rfl rfl (by decide) (by decide) (by decide) rfl (by decide)).1,
   ((C1_expiry_pass wDbC1 wRemote 1000 12 (by decide) (by decide) (by decide)).1
      wInv1 500 wTeam1 [wOwner, wMember] wMember
      (by decide) rfl rfl rfl rfl (by decide) (by decide) (by decide) rfl (by decide)).2,
   (C1_expiry_pass wDbC1 wRemote 300 12 (by decide) (by decide) (by decide)).2 (by decide)⟩

theorem C2_witness :
    ("acct1", "u1") ∈ (tick wDbC2 wRemote 1000 12).kicks ∧
    ∃ log ∈ (tick wDbC2 wRemote 1000 12).db.kickLogs,
      log.teamId = wTeam1.id ∧ log.email = lowerStr wMember.email ∧
      log.reason = "unauthorized" ∧ log.success = wRemote.kickOk "acct1" "u1" :=
  C2_unauthorized_members_removed wDbC2 wRemote 1000 12 wTeam1 [wOwner, wMember] wMember
    (by decide) (by decide) (by decide) (by decide) rfl (by decide) (by decide)


theorem C9_witness :
    (createInvitation wDb wNewInv 1000).1.email = lowerStr (trimStr " USER@X.com ") ∧
    (createInvitation wDb wNewInv 1000).1 ∈ (createInvitation wDb wNewInv 1000).2.invitations ∧
    lookupIndex (createInvitation wDb wNewInv 1000).2
      (lowerStr (trimStr " USER@X.com "), "t1") =
      some (createInvitation wDb wNewInv 1000).1.id ∧
    (∀ i ∈ (createInvitation wDb wNewInv 1000).2.invitations,
      i.email = lowerStr (trimStr i.email) ∧
      ∃ v, lookupIndex (createInvitation wDb wNewInv 1000).2 (i.email, i.teamId) = some v) :=
  C9_ledger_normalization wDb wNewInv 1000 (by simp [wDb])

theorem C10_witness :
    (listTeams wDb.teams).Perm wDb.teams ∧
    List.Sorted (fun a b : Team => b.createdAt ≤ a.createdAt) (listTeams wDb.teams) ∧
    (joinScan wRemote 1000 (lowerStr "new@x.com") "new@x.com" "key1" wKey
        (listTeams wDb.teams) wDb none).res =
      ScanRes.finished (some (refreshedOf wRemote 1000 wTeam1)) ∧
    candTeamOK wRemote wTeam1 = true ∧
    (∀ u ∈ wDb.teams, candTeamOK wRemote u = true → u.createdAt ≤ wTeam1.createdAt) :=
  C10_newest_first_selection wDb wRemote 1000 "new@x.com" "key1" wKey wTeam1
    (by decide) (by decide) (by decide)

theorem C4_witness :
    (join wDb wRemote 1000 "User@X.com" "key1").res =
      (join wDb wRemote 1000 (lowerStr "User@X.com") "key1").res ∧
    (join wDb wRemote 1000 "User@X.com" "key1").db =
      (join wDb wRemote 1000 (lowerStr "User@X.com") "key1").db ∧
    (join wDb wRemote 1000 "User@X.com" "key1").invites =
      (join wDb wRemote 1000 (lowerStr "User@X.com") "key1").invites.map
        (fun p => (p.1, "User@X.com")) :=
  C4_join_lowercase wDb wRemote 1000 "User@X.com" "key1" (fun _ _ => rfl)
